import Mathlib

/-!
Verification of the three documentation scripts in this repository
(`add_props.py`, `fix_docs.py`, `create_processor_docs.py`).

The scripts transform Markdown file contents with Python `re.sub` and
string formatting.  We embed the content-level transformations shallowly:

* `subAllG` models `re.sub`'s scan: it repeatedly finds the leftmost
  match of a pattern (given as a matcher on the remaining character
  list), replaces it, and continues scanning after the match, exactly
  as Python's `re.sub` with the default `count=0` does.
* `parseRepl` / `expandRepl` model Python's treatment of the
  replacement string as a template: `\1`..`\9` are group references
  (validated against the pattern's group count when the template is
  parsed, as CPython does), `\\`, `\n`, `\t`, `\r` are escapes, and a
  lone or unknown escape is an error.  Escapes that cannot occur in
  this repository's replacement strings (octal escapes, `\g<...>`,
  multi-digit group numbers beyond the patterns' single group) are
  conservatively mapped to the error case; every theorem below either
  assumes backslash-free data (where the model is exact) or evaluates
  the model on escapes (`\n`, `\\`) where it agrees with CPython.
* File-level drivers are modelled in a later section as a fold over a
  list of jobs against an association-list file system.

Machine strings are Lean `String`s / `List Char`; Python `str.upper` /
`str.lower` on the ASCII data appearing here are `Char.toUpper` /
`Char.toLower`.
-/

set_option maxRecDepth 20000

/-- A matcher tries to match a pattern at the head of the character list;
on success it returns the matched characters and the remainder. -/
def MatcherT : Type := List Char → Option (List Char × List Char)

/-- A matcher is well formed when a match is a nonempty prefix of its input. -/
def MatcherOK (ma : MatcherT) : Prop :=
  ∀ cs m r, ma cs = some (m, r) → m ≠ [] ∧ m ++ r = cs

/-- Leftmost-match search: split the input into the part before the first
match, the match itself, and the remainder after it. -/
def findMatchG (ma : MatcherT) : List Char → Option (List Char × List Char × List Char)
  | [] => (ma []).map fun x => ([], x.1, x.2)
  | c :: cs =>
    (ma (c :: cs)).elim ((findMatchG ma cs).map fun x => (c :: x.1, x.2.1, x.2.2))
      fun x => some ([], x.1, x.2)

/-- Fuel-indexed core of `re.sub`: replace every non-overlapping match from
left to right, continuing after each replacement.  With fuel at least the
input length this is exactly Python's scan (our matchers never match the
empty string). -/
def subAllF (ma : MatcherT) (repl : List Char → List Char) : Nat → List Char → List Char
  | 0, cs => cs
  | fuel + 1, cs =>
    (findMatchG ma cs).elim cs fun x => x.1 ++ repl x.2.1 ++ subAllF ma repl fuel x.2.2

/-- `re.sub(pattern, repl, s)` with `count = 0` (replace all matches). -/
def subAllG (ma : MatcherT) (repl : List Char → List Char) (cs : List Char) : List Char :=
  subAllF ma repl cs.length cs

/-- One token of a compiled Python replacement template: a literal character
or a group reference. -/
inductive ReplTok where
  | lit (c : Char)
  | group (n : Nat)
deriving DecidableEq

/-- Parse a Python replacement string into template tokens, validating group
references against the pattern's group count (CPython compiles the template
before scanning, so a bad template is an error even when nothing matches).
`none` is the error case. -/
def parseRepl (numGroups : Nat) : List Char → Option (List ReplTok)
  | [] => some []
  | c :: rest =>
    if c = '\\' then
      match rest with
      | [] => none
      | e :: r =>
        if e = '\\' then (parseRepl numGroups r).map (ReplTok.lit '\\' :: ·)
        else if e = 'n' then (parseRepl numGroups r).map (ReplTok.lit '\n' :: ·)
        else if e = 't' then (parseRepl numGroups r).map (ReplTok.lit '\t' :: ·)
        else if e = 'r' then (parseRepl numGroups r).map (ReplTok.lit '\r' :: ·)
        else if e.isDigit && e != '0' && !(r.head?.elim false Char.isDigit) &&
            decide (e.toNat - 48 ≤ numGroups) then
          (parseRepl numGroups r).map (ReplTok.group (e.toNat - 48) :: ·)
        else none
    else (parseRepl numGroups rest).map (ReplTok.lit c :: ·)

/-- Expand a compiled replacement template against the groups of one match. -/
def expandRepl (toks : List ReplTok) (groups : List (List Char)) : List Char :=
  toks.foldr
    (fun t acc =>
      match t with
      | ReplTok.lit c => c :: acc
      | ReplTok.group n => groups.getD (n - 1) [] ++ acc)
    []

/-- `s` contains no backslash character (so Python's replacement-template
processing of `s` is the identity). -/
def NoBS (s : String) : Prop := '\\' ∉ s.data

instance (s : String) : Decidable (NoBS s) := by
  unfold NoBS; infer_instance

/-! ## `add_props.py` -/

/-- One entry of `PROCESSOR_PROPS`: `(prop_name, prop_type, default, description)`. -/
structure PropRow where
  name : String
  ptype : String
  dflt : String
  descr : String
deriving DecidableEq

/-- The Markdown row formatted for one prop:
`| `name` | `type` | `default` | description |` followed by a newline
(the f-string in the loop body of `add_props_to_file`). -/
def propRowStr (p : PropRow) : String :=
  "| `" ++ p.name ++ "` | `" ++ p.ptype ++ "` | `" ++ p.dflt ++ "` | " ++ p.descr ++ " |\n"

/-- The `new_props` accumulator of `add_props_to_file`: the concatenation of
the formatted rows, built left to right. -/
def new_props (props : List PropRow) : String :=
  props.foldl (fun acc p => acc ++ propRowStr p) ""

/-- The literal part of the anchor pattern `r'(\| `children` \|[^\n]+\n)'`. -/
def childrenLit : List Char := "| `children` |".data

/-- Matcher for the anchor pattern `(\| `children` \|[^\n]+\n)`: the literal
`| `children` |`, then one or more non-newline characters, then a newline.
The single group is the whole match. -/
def childrenMatchAt : MatcherT := fun cs =>
  if childrenLit.isPrefixOf cs then
    let rest0 := cs.drop childrenLit.length
    let run := rest0.takeWhile (fun c => c ≠ '\n')
    let rest1 := rest0.dropWhile (fun c => c ≠ '\n')
    if run = [] ∨ rest1 = [] then none
    else some (childrenLit ++ run ++ ['\n'], rest1.tail)
  else none

/-- The content transformation of `add_props_to_file` (file I/O stripped):
`re.sub(children_pattern, new_props + r'\1', content)`, where the
replacement string is a template whose group 1 is the whole match.
`none` models a raised exception (a bad replacement template). -/
def add_props_to_file (props : List PropRow) (content : String) : Option String :=
  match parseRepl 1 ((new_props props).data ++ ['\\', '1']) with
  | none => none
  | some toks =>
    some ⟨subAllG childrenMatchAt (fun m => expandRepl toks [m]) content.data⟩

/-- The purely textual reading of the Row Injector: insert the formatted
rows, character for character, immediately before every anchor match. -/
def addPropsLiteral (props : List PropRow) (content : String) : String :=
  ⟨subAllG childrenMatchAt (fun m => (new_props props).data ++ m) content.data⟩

/-! ## `fix_docs.py` -/

/-- `generate_log_statements` of `fix_docs.py`:
`"\n      ".join("console.log('p:', state.p);" for p in props)`. -/
def generate_log_statements (props : List String) : String :=
  String.intercalate "\n      "
    (props.map fun p => "console.log(\'" ++ p ++ ":\', state." ++ p ++ ");")

/-- Python `str.lower()`, mapping each character (ASCII case mapping, which
is exact for the component names in this repository). -/
def pyLower (s : String) : String := ⟨s.data.map Char.toLower⟩

/-- `IMPERATIVE_TEMPLATE.format(component=component, ref=component.lower(),
log_statements=generate_log_statements(props))`: the rendered replacement
section of `fix_file`. -/
def imperativeSection (component : String) (props : List String) : String :=
  let ref := pyLower component
  let logs := generate_log_statements props
  "### Imperative Refs\n\nFor programmatic access to state, you can use refs:\n\n```tsx\nimport \x7b "
    ++ component ++ ", " ++ component
    ++ "Handle, Monitor \x7d from \'@mode-7/mod\';\nimport \x7b useRef, useEffect \x7d from \'react\';\n\nfunction App() \x7b\n  const "
    ++ ref ++ "Ref = useRef<" ++ component
    ++ "Handle>(null);\n  const inputRef = useRef(null);\n  const outputRef = useRef(null);\n\n  useEffect(() => \x7b\n    // Access current state\n    if ("
    ++ ref ++ "Ref.current) \x7b\n      const state = " ++ ref
    ++ "Ref.current.getState();\n      " ++ logs
    ++ "\n    \x7d\n  \x7d, []);\n\n  return (\n    <>\n      <SomeSource output=\x7binputRef\x7d />\n      <"
    ++ component ++ "\n        ref=\x7b" ++ ref
    ++ "Ref\x7d\n        input=\x7binputRef\x7d\n        output=\x7boutputRef\x7d\n      />\n      <Monitor input=\x7boutputRef\x7d />\n    </>\n  );\n\x7d\n```\n\n**Note:** The imperative handle provides read-only access via `getState()`. To control the component programmatically, use the controlled props pattern shown above."

/-- The literal head of the pattern `r'### Imperative Refs.*?(?=\n## |\Z)'`. -/
def imperativeLit : List Char := "### Imperative Refs".data

/-- The lookahead delimiter `\n## ` of the section pattern. -/
def stopLit : List Char := "\n## ".data

/-- Split the input at the earliest position where `\n## ` begins (the
lookahead of the lazy `.*?`), or return the whole input when there is
none (`\Z`). -/
def findStop : List Char → List Char × List Char
  | [] => ([], [])
  | c :: cs =>
    if stopLit.isPrefixOf (c :: cs) then ([], c :: cs)
    else
      let p := findStop cs
      (c :: p.1, p.2)

/-- Matcher for `### Imperative Refs.*?(?=\n## |\Z)` under `re.DOTALL`:
the literal heading, then the shortest run of characters (newlines
included) ending right before the next `\n## ` or at the end of input. -/
def imperativeMatchAt : MatcherT := fun cs =>
  if imperativeLit.isPrefixOf cs then
    let p := findStop (cs.drop imperativeLit.length)
    some (imperativeLit ++ p.1, p.2)
  else none

/-- The content transformation of `fix_file` (file I/O stripped):
`re.sub(pattern, imperative_section, content, flags=re.DOTALL)`.  The
rendered section is processed as a replacement template (group count 0);
`none` models a raised exception. -/
def fix_file (component : String) (props : List String) (content : String) : Option String :=
  match parseRepl 0 (imperativeSection component props).data with
  | none => none
  | some toks =>
    some ⟨subAllG imperativeMatchAt (fun _ => expandRepl toks []) content.data⟩

/-! ## `create_processor_docs.py` -/

/-- One entry of a `PROCESSORS` prop tuple in `create_processor_docs.py`:
`(prop_name, prop_type, default, description, render_description)`. -/
structure PropSpec where
  name : String
  ptype : String
  dflt : String
  descr : String
  renderDescr : String
deriving DecidableEq

/-- Python `prop_name[0].upper() + prop_name[1:]`; `none` models the
`IndexError` raised on an empty name. -/
def pyCapHead (n : String) : Option String :=
  match n.data with
  | [] => none
  | c :: rest => some ⟨Char.toUpper c :: rest⟩

/-- `generate_props_rows` of `create_processor_docs.py`: for each prop, the
prop row followed by the synthesized on-change callback row
(`on{name[0].upper()}{name[1:]}Change`).  `none` models the exception on an
empty prop name. -/
def generate_props_rows (props : List PropSpec) : Option String :=
  props.foldl
    (fun acc p =>
      acc.bind fun s =>
        (pyCapHead p.name).map fun capped =>
          s ++ "| `" ++ p.name ++ "` | `" ++ p.ptype ++ "` | `" ++ p.dflt ++ "` | "
            ++ p.descr ++ " |\n"
            ++ "| `on" ++ capped ++ "Change` | `(" ++ p.name ++ ": " ++ p.ptype
            ++ ") => void` | `-` | Callback when " ++ p.name ++ " changes |\n")
    (some "")

/-- `generate_render_props_rows` of `create_processor_docs.py`: for each
prop, the render-prop row followed by the synthesized setter row
(`set{name[0].upper()}{name[1:]}`). -/
def generate_render_props_rows (props : List PropSpec) : Option String :=
  props.foldl
    (fun acc p =>
      acc.bind fun s =>
        (pyCapHead p.name).map fun capped =>
          s ++ "| `" ++ p.name ++ "` | `" ++ p.ptype ++ "` | " ++ p.renderDescr ++ " |\n"
            ++ "| `set" ++ capped ++ "` | `(value: " ++ p.ptype
            ++ ") => void` | Update the " ++ p.name ++ " |\n")
    (some "")

/-- Modelled from the spec: `upper(N[0]) + N[1:]` — uppercase only the first
character and leave the remainder unchanged. -/
def specUpperFirst (n : String) : String :=
  ⟨(n.data.take 1).map Char.toUpper ++ n.data.drop 1⟩

/-- Modelled from the spec: the derived on-change callback identifier
`"on" + upper(N[0]) + N[1:] + "Change"`. -/
def specCallbackName (n : String) : String := "on" ++ specUpperFirst n ++ "Change"

/-- Modelled from the spec: the derived setter identifier
`"set" + upper(N[0]) + N[1:]`. -/
def specSetterName (n : String) : String := "set" ++ specUpperFirst n

/-- Modelled from the spec: the expected props-table row pair for one prop,
with the callback identifier given by `specCallbackName`. -/
def specPropsRowPair (p : PropSpec) : String :=
  "| `" ++ p.name ++ "` | `" ++ p.ptype ++ "` | `" ++ p.dflt ++ "` | " ++ p.descr ++ " |\n"
    ++ "| `" ++ specCallbackName p.name ++ "` | `(" ++ p.name ++ ": " ++ p.ptype
    ++ ") => void` | `-` | Callback when " ++ p.name ++ " changes |\n"

/-- Modelled from the spec: the expected render-props row pair for one prop,
with the setter identifier given by `specSetterName`. -/
def specRenderRowPair (p : PropSpec) : String :=
  "| `" ++ p.name ++ "` | `" ++ p.ptype ++ "` | " ++ p.renderDescr ++ " |\n"
    ++ "| `" ++ specSetterName p.name ++ "` | `(value: " ++ p.ptype
    ++ ") => void` | Update the " ++ p.name ++ " |\n"

/-- The expected props-table rows: one `specPropsRowPair` per prop, in list
order. -/
def specPropsRows : List PropSpec → String
  | [] => ""
  | p :: ps => specPropsRowPair p ++ specPropsRows ps

/-- The expected render-props rows: one `specRenderRowPair` per prop, in
list order. -/
def specRenderRows : List PropSpec → String
  | [] => ""
  | p :: ps => specRenderRowPair p ++ specRenderRows ps

/-! ## The per-file driver loops

All three scripts run `for entry in TABLE: try: process(entry) except: log`.
We model the documentation directory as an association list from filename
to content, and each loop iteration as `runOne`.  The two patch scripts
read, transform, and write back; `create_processor_docs.py` renders and
writes unconditionally (creating the file if absent).  A `false` flag is
the logged per-file error. -/

/-- The documentation directory: filename to file content. -/
abbrev DocFS := List (String × String)

/-- Read a file; `none` is a missing file (`FileNotFoundError`). -/
def fsRead (fs : DocFS) (name : String) : Option String :=
  (fs.find? fun e => e.1 == name).map (·.2)

/-- Overwrite an existing file's content. -/
def fsWrite (fs : DocFS) (name c : String) : DocFS :=
  fs.map fun e => if e.1 == name then (e.1, c) else e

/-- `open(path, 'w')` for a possibly absent file: overwrite or create. -/
def fsCreate (fs : DocFS) (name c : String) : DocFS :=
  if (fs.find? fun e => e.1 == name).isSome then fsWrite fs name c
  else fs ++ [(name, c)]

/-- One loop body: either a read-transform-write job (`add_props_to_file`,
`fix_file`) or a render-and-write job (`create_processor_doc`).  `none` in
the transform or rendering is a raised exception. -/
inductive Job where
  | patch (name : String) (transform : String → Option String)
  | generate (name : String) (rendered : Option String)

/-- The filename a job touches. -/
def Job.jobName : Job → String
  | Job.patch n _ => n
  | Job.generate n _ => n

/-- Run one job inside the `try/except`: a missing file or a failing
transform is caught and leaves the file system unchanged, flagged `false`. -/
def runOne (fs : DocFS) : Job → DocFS × Bool
  | Job.patch n tr =>
    match fsRead fs n with
    | none => (fs, false)
    | some c =>
      match tr c with
      | none => (fs, false)
      | some c2 => (fsWrite fs n c2, true)
  | Job.generate n r =>
    match r with
    | none => (fs, false)
    | some s => (fsCreate fs n s, true)

/-- The driver loop: run every job in order, collecting per-file outcomes. -/
def runAll (fs : DocFS) : List Job → DocFS × List (String × Bool)
  | [] => (fs, [])
  | j :: js =>
    let r := runOne fs j
    let rest := runAll r.1 js
    (rest.1, (j.jobName, r.2) :: rest.2)

/-- `main` of `add_props.py`, over its `PROCESSOR_PROPS` table. -/
def add_props_main (table : List (String × List PropRow)) (fs : DocFS) :
    DocFS × List (String × Bool) :=
  runAll fs (table.map fun e => Job.patch e.1 (add_props_to_file e.2))

/-- `main` of `fix_docs.py`, over its `PROCESSORS` table of
`(filename, component, props)` triples. -/
def fix_docs_main (table : List (String × String × List String)) (fs : DocFS) :
    DocFS × List (String × Bool) :=
  runAll fs (table.map fun e => Job.patch e.1 (fix_file e.2.1 e.2.2))

/-- `main` of `create_processor_docs.py`, over its `PROCESSORS` table; the
page renderer is abstracted as `render` (its output is irrelevant to the
loop's failure isolation). -/
def create_docs_main {α : Type} (render : α → Option String)
    (table : List (String × α)) (fs : DocFS) : DocFS × List (String × Bool) :=
  runAll fs (table.map fun e => Job.generate e.1 (render e.2))

/-! ## Decompositions of a document by its anchor and heading matches

To state the per-occurrence behaviour of the two substitutions for every
content, a document is presented as alternating segments and match
occurrences.  The well-formedness predicates below say only that the
pattern matches exactly at the listed occurrences — segments may contain
any characters (table pipes, `#` headings, newlines), as long as no match
of the respective pattern starts inside them. -/

/-- A children anchor line with run `t`: `| `children` |` ++ t ++ newline. -/
def anchorLine (t : List Char) : List Char := childrenLit ++ t ++ ['\n']

/-- A document built from `(segment, anchor run)` parts and a final
segment: `seg₁ ++ anchor₁ ++ ... ++ segₙ ++ anchorₙ ++ tail`. -/
def assemble : List (List Char × List Char) → List Char → List Char
  | [], tail => tail
  | (seg, t) :: rest, tail => seg ++ (anchorLine t ++ assemble rest tail)

/-- The same document with `rows` inserted immediately before every
anchor line. -/
def assembleIns (rows : List Char) : List (List Char × List Char) → List Char → List Char
  | [], tail => tail
  | (seg, t) :: rest, tail => seg ++ (rows ++ (anchorLine t ++ assembleIns rows rest tail))

/-- The decomposition is exact: each listed anchor is a real anchor line
(non-empty newline-free run), no anchor match starts inside a segment, and
none in the tail.  Segments may otherwise contain anything. -/
def SegsOk : List (List Char × List Char) → List Char → Prop
  | [], tail => findMatchG childrenMatchAt tail = none
  | (seg, t) :: rest, tail =>
      t ≠ [] ∧ '\n' ∉ t ∧
      (∀ i, i < seg.length →
        childrenMatchAt ((seg ++ (anchorLine t ++ assemble rest tail)).drop i) = none) ∧
      SegsOk rest tail

instance instDecidableSegsOk :
    ∀ (parts : List (List Char × List Char)) (tail : List Char),
      Decidable (SegsOk parts tail)
  | [], tail => by unfold SegsOk; infer_instance
  | (seg, t) :: rest, tail => by
    unfold SegsOk
    have : Decidable (SegsOk rest tail) := instDecidableSegsOk rest tail
    infer_instance

/-- A document built from `(segment, section body)` parts and a final
segment: `seg₁ ++ ### Imperative Refs ++ body₁ ++ ... ++ tail`. -/
def assembleSec : List (List Char × List Char) → List Char → List Char
  | [], tail => tail
  | (seg, b) :: rest, tail => seg ++ (imperativeLit ++ (b ++ assembleSec rest tail))

/-- The same document with every heading-plus-body region replaced by the
rendered section `S`. -/
def assembleSecIns (S : List Char) : List (List Char × List Char) → List Char → List Char
  | [], tail => tail
  | (seg, _) :: rest, tail => seg ++ (S ++ assembleSecIns S rest tail)

/-- The decomposition is exact: no heading match starts inside a segment,
each body runs exactly up to the next `\n## ` (the following text) or to
end of file (`findStop` stops at the part boundary), and the tail has no
heading match.  Segments and bodies may contain newlines, `#` characters
and headings of other levels. -/
def SecOk : List (List Char × List Char) → List Char → Prop
  | [], tail => findMatchG imperativeMatchAt tail = none
  | (seg, b) :: rest, tail =>
      (∀ i, i < seg.length →
        imperativeMatchAt
          ((seg ++ (imperativeLit ++ (b ++ assembleSec rest tail))).drop i) = none) ∧
      findStop (b ++ assembleSec rest tail) = (b, assembleSec rest tail) ∧
      SecOk rest tail

instance instDecidableSecOk :
    ∀ (parts : List (List Char × List Char)) (tail : List Char),
      Decidable (SecOk parts tail)
  | [], tail => by unfold SecOk; infer_instance
  | (seg, b) :: rest, tail => by
    unfold SecOk
    have : Decidable (SecOk rest tail) := instDecidableSecOk rest tail
    infer_instance

/-! ## Generic lemmas about the `re.sub` scan -/

theorem matcherOK_nil_none (ma : MatcherT) (hok : MatcherOK ma) : ma [] = none := by
  cases h : ma [] with
  | none => rfl
  | some x =>
    obtain ⟨m, r⟩ := x
    rcases hok [] m r h with ⟨hne, happ⟩
    rcases List.append_eq_nil.mp happ with ⟨h1, _⟩
    exact absurd h1 hne

theorem findMatchG_nil (ma : MatcherT) (hok : MatcherOK ma) : findMatchG ma [] = none := by
  simp [findMatchG, matcherOK_nil_none ma hok]

theorem findMatchG_cons_some (ma : MatcherT) {c : Char} {cs m r : List Char}
    (h : ma (c :: cs) = some (m, r)) : findMatchG ma (c :: cs) = some ([], m, r) := by
  simp [findMatchG, h]

theorem findMatchG_cons_none (ma : MatcherT) {c : Char} {cs : List Char}
    (h : ma (c :: cs) = none) :
    findMatchG ma (c :: cs) = (findMatchG ma cs).map fun x => (c :: x.1, x.2.1, x.2.2) := by
  simp [findMatchG, h]

theorem findMatchG_some_decomp (ma : MatcherT) (hok : MatcherOK ma) :
    ∀ cs p m r, findMatchG ma cs = some (p, m, r) → cs = p ++ m ++ r ∧ m ≠ [] := by
  intro cs
  induction cs with
  | nil =>
    intro p m r h
    rw [findMatchG_nil ma hok] at h
    cases h
  | cons c cs ih =>
    intro p m r h
    cases hma : ma (c :: cs) with
    | some x =>
      obtain ⟨m0, r0⟩ := x
      rw [findMatchG_cons_some ma hma] at h
      simp only [Option.some.injEq, Prod.mk.injEq] at h
      obtain ⟨hp, hm, hr⟩ := h
      rcases hok (c :: cs) m0 r0 hma with ⟨hne, happ⟩
      subst hp hm hr
      exact ⟨by simpa using happ.symm, hne⟩
    | none =>
      rw [findMatchG_cons_none ma hma] at h
      cases hfm : findMatchG ma cs with
      | none => rw [hfm] at h; cases h
      | some x =>
        obtain ⟨p0, m0, r0⟩ := x
        rw [hfm] at h
        simp only [Option.map_some', Option.some.injEq, Prod.mk.injEq] at h
        obtain ⟨hp, hm, hr⟩ := h
        rcases ih p0 m0 r0 hfm with ⟨happ, hne⟩
        subst hm hr
        refine ⟨?_, hne⟩
        rw [← hp, happ]
        simp

theorem subAllF_succ (ma : MatcherT) (repl : List Char → List Char) (fuel : Nat)
    (cs : List Char) :
    subAllF ma repl (fuel + 1) cs =
      (findMatchG ma cs).elim cs fun x => x.1 ++ repl x.2.1 ++ subAllF ma repl fuel x.2.2 :=
  rfl

theorem subAllF_fuel_irrel (ma : MatcherT) (hok : MatcherOK ma) (repl : List Char → List Char) :
    ∀ n f g (cs : List Char), cs.length ≤ n → n ≤ f → n ≤ g →
      subAllF ma repl f cs = subAllF ma repl g cs := by
  intro n
  induction n using Nat.strong_induction_on with
  | _ n ih =>
    intro f g cs hlen hf hg
    cases f with
    | zero =>
      cases g with
      | zero => rfl
      | succ g' =>
        have hcs : cs = [] := List.length_eq_zero.mp (Nat.le_zero.mp (hlen.trans hf))
        subst hcs
        rw [subAllF_succ, findMatchG_nil ma hok]
        rfl
    | succ f' =>
      cases g with
      | zero =>
        have hcs : cs = [] := List.length_eq_zero.mp (Nat.le_zero.mp (hlen.trans hg))
        subst hcs
        rw [subAllF_succ, findMatchG_nil ma hok]
        rfl
      | succ g' =>
        rw [subAllF_succ, subAllF_succ]
        cases hfm : findMatchG ma cs with
        | none => rfl
        | some x =>
          obtain ⟨p, m, r⟩ := x
          simp only [Option.elim]
          rcases findMatchG_some_decomp ma hok cs p m r hfm with ⟨happ, hne⟩
          have hm1 : 1 ≤ m.length := List.length_pos.mpr hne
          have hcl : cs.length = p.length + m.length + r.length := by
            rw [happ]; simp only [List.length_append]
          have hr : r.length < n := by omega
          rw [ih r.length hr f' g' r le_rfl (by omega) (by omega)]

theorem subAllG_nomatch (ma : MatcherT) (repl : List Char → List Char) (cs : List Char)
    (h : findMatchG ma cs = none) : subAllG ma repl cs = cs := by
  unfold subAllG
  cases cs with
  | nil => rfl
  | cons c cs' =>
    rw [show (c :: cs').length = cs'.length + 1 from rfl, subAllF_succ, h]
    rfl

theorem subAllG_split (ma : MatcherT) (hok : MatcherOK ma) (repl : List Char → List Char)
    (cs p m r : List Char) (h : findMatchG ma cs = some (p, m, r)) :
    subAllG ma repl cs = p ++ repl m ++ subAllG ma repl r := by
  rcases findMatchG_some_decomp ma hok cs p m r h with ⟨happ, hne⟩
  have hm1 : 1 ≤ m.length := List.length_pos.mpr hne
  have hcl : cs.length = p.length + m.length + r.length := by
    rw [happ]; simp only [List.length_append]
  obtain ⟨k, hk⟩ : ∃ k, cs.length = k + 1 := ⟨cs.length - 1, by omega⟩
  unfold subAllG
  rw [hk, subAllF_succ, h]
  simp only [Option.elim]
  rw [subAllF_fuel_irrel ma hok repl r.length k r.length r le_rfl (by omega) le_rfl]

theorem subAllF_congr_repl (ma : MatcherT) (r₁ r₂ : List Char → List Char)
    (hr : ∀ m, r₁ m = r₂ m) :
    ∀ f cs, subAllF ma r₁ f cs = subAllF ma r₂ f cs := by
  intro f
  induction f with
  | zero => intro cs; rfl
  | succ f ih =>
    intro cs
    rw [subAllF_succ, subAllF_succ]
    cases hfm : findMatchG ma cs with
    | none => rfl
    | some x =>
      simp only [Option.elim]
      rw [hr, ih]

theorem subAllG_congr_repl (ma : MatcherT) (r₁ r₂ : List Char → List Char)
    (hr : ∀ m, r₁ m = r₂ m) (cs : List Char) :
    subAllG ma r₁ cs = subAllG ma r₂ cs :=
  subAllF_congr_repl ma r₁ r₂ hr cs.length cs

theorem findMatchG_skip (ma : MatcherT) (c₀ : Char)
    (hstart : ∀ cs r, ma cs = some r → ∃ t, cs = c₀ :: t) :
    ∀ (a z : List Char), c₀ ∉ a →
      findMatchG ma (a ++ z) = (findMatchG ma z).map fun x => (a ++ x.1, x.2.1, x.2.2) := by
  intro a
  induction a with
  | nil =>
    intro z _
    simp only [List.nil_append]
    cases hfm : findMatchG ma z with
    | none => simp
    | some x => simp
  | cons c a' ih =>
    intro z hc
    have hnotin : c₀ ∉ a' := fun h => hc (List.mem_cons_of_mem c h)
    have hma : ma (c :: (a' ++ z)) = none := by
      cases hq : ma (c :: (a' ++ z)) with
      | none => rfl
      | some r =>
        exfalso
        rcases hstart _ r hq with ⟨t, ht⟩
        injection ht with h1 _
        subst h1
        exact hc (List.mem_cons_self _ _)
    have : (c :: a') ++ z = c :: (a' ++ z) := rfl
    rw [this, findMatchG_cons_none ma hma, ih z hnotin]
    cases findMatchG ma z with
    | none => rfl
    | some x => simp

/-! ## Lemmas about the two concrete matchers -/

theorem isPrefixOf_cons_cons (a b : Char) (as bs : List Char) :
    (a :: as).isPrefixOf (b :: bs) = (a == b && as.isPrefixOf bs) := rfl

theorem takeWhile_all_append (p : Char → Bool) :
    ∀ (t u : List Char), (∀ x ∈ t, p x = true) →
      (t ++ u).takeWhile p = t ++ u.takeWhile p := by
  intro t
  induction t with
  | nil => intro u _; rfl
  | cons c t' ih =>
    intro u h
    have hc : p c = true := h c (List.mem_cons_self _ _)
    have ih' := ih u fun x hx => h x (List.mem_cons_of_mem c hx)
    simp [List.takeWhile_cons, hc, ih']

theorem dropWhile_all_append (p : Char → Bool) :
    ∀ (t u : List Char), (∀ x ∈ t, p x = true) →
      (t ++ u).dropWhile p = u.dropWhile p := by
  intro t
  induction t with
  | nil => intro u _; rfl
  | cons c t' ih =>
    intro u h
    have hc : p c = true := h c (List.mem_cons_self _ _)
    simp only [List.cons_append, List.dropWhile_cons, hc]
    exact ih u fun x hx => h x (List.mem_cons_of_mem c hx)

theorem childrenMatchAt_head_ne (c : Char) (w : List Char) (hc : c ≠ '|') :
    childrenMatchAt (c :: w) = none := by
  have hlit : childrenLit = '|' :: " `children` |".data := by decide
  have hb : ('|' == c) = false := beq_eq_false_iff_ne.mpr fun h => hc h.symm
  have hnp : childrenLit.isPrefixOf (c :: w) = false := by
    rw [hlit, isPrefixOf_cons_cons, hb, Bool.false_and]
  unfold childrenMatchAt
  rw [if_neg (by simp [hnp])]

theorem childrenMatchAt_nil : childrenMatchAt [] = none := by decide

theorem childrenMatchAt_start :
    ∀ cs r, childrenMatchAt cs = some r → ∃ t, cs = '|' :: t := by
  intro cs r h
  cases cs with
  | nil => rw [childrenMatchAt_nil] at h; cases h
  | cons c w =>
    by_cases hc : c = '|'
    · exact ⟨w, by rw [hc]⟩
    · rw [childrenMatchAt_head_ne c w hc] at h; cases h

theorem dropWhile_ne_newline_head :
    ∀ (l : List Char), l.dropWhile (fun c => decide (c ≠ '\n')) ≠ [] →
      l.dropWhile (fun c => decide (c ≠ '\n')) =
        '\n' :: (l.dropWhile (fun c => decide (c ≠ '\n'))).tail := by
  intro l
  induction l with
  | nil => intro h; exact absurd rfl h
  | cons a tl ih =>
    intro hne
    by_cases ha : a = '\n'
    · subst ha
      simp [List.dropWhile_cons]
    · have hstep : List.dropWhile (fun c => decide (c ≠ '\n')) (a :: tl) =
          List.dropWhile (fun c => decide (c ≠ '\n')) tl := by
        simp [List.dropWhile_cons, ha]
      rw [hstep] at hne ⊢
      exact ih hne

theorem childrenMatchAt_ok : MatcherOK childrenMatchAt := by
  intro cs m r h
  unfold childrenMatchAt at h
  split at h
  case isTrue hp =>
    dsimp only at h
    split at h
    case isTrue hcond => exact absurd h (by simp)
    case isFalse hcond =>
      push_neg at hcond
      obtain ⟨hrun, hrest1⟩ := hcond
      simp only [Option.some.injEq, Prod.mk.injEq] at h
      obtain ⟨hm, hr⟩ := h
      obtain ⟨rest, hrest⟩ := List.isPrefixOf_iff_prefix.mp hp
      have hdrop : cs.drop childrenLit.length = rest := by
        rw [← hrest]; exact List.drop_left _ _
      constructor
      · rw [← hm]
        intro hcontra
        have : childrenLit = [] := (List.append_eq_nil.mp ((List.append_eq_nil.mp hcontra).1)).1
        exact absurd this (by decide)
      · have hsplit : (cs.drop childrenLit.length |>.takeWhile (fun c => decide (c ≠ '\n'))) ++
            (cs.drop childrenLit.length |>.dropWhile (fun c => decide (c ≠ '\n'))) =
            cs.drop childrenLit.length := List.takeWhile_append_dropWhile _ _
        have hhead := dropWhile_ne_newline_head (cs.drop childrenLit.length) hrest1
        rw [← hm, ← hr]
        calc childrenLit ++ (cs.drop childrenLit.length |>.takeWhile (fun c => decide (c ≠ '\n')))
            ++ ['\n'] ++ (cs.drop childrenLit.length |>.dropWhile (fun c => decide (c ≠ '\n'))).tail
            = childrenLit ++ ((cs.drop childrenLit.length |>.takeWhile (fun c => decide (c ≠ '\n')))
              ++ ('\n' :: (cs.drop childrenLit.length
                |>.dropWhile (fun c => decide (c ≠ '\n'))).tail)) := by simp
        _ = childrenLit ++ ((cs.drop childrenLit.length |>.takeWhile (fun c => decide (c ≠ '\n')))
              ++ (cs.drop childrenLit.length |>.dropWhile (fun c => decide (c ≠ '\n')))) := by
              rw [← hhead]
        _ = childrenLit ++ cs.drop childrenLit.length := by rw [hsplit]
        _ = cs := by rw [hdrop, hrest]
  case isFalse hp => exact absurd h (by simp)

theorem childrenMatchAt_at (t z : List Char) (ht : t ≠ []) (hn : '\n' ∉ t) :
    childrenMatchAt (childrenLit ++ (t ++ '\n' :: z)) = some (childrenLit ++ t ++ ['\n'], z) := by
  unfold childrenMatchAt
  have hp : childrenLit.isPrefixOf (childrenLit ++ (t ++ '\n' :: z)) :=
    List.isPrefixOf_iff_prefix.mpr (List.prefix_append _ _)
  rw [if_pos hp]
  dsimp only
  rw [List.drop_left]
  have hall : ∀ x ∈ t, (fun c => decide (c ≠ '\n')) x = true := by
    intro x hx
    simp only [decide_eq_true_eq]
    exact fun hq => hn (hq ▸ hx)
  have htake : (t ++ '\n' :: z).takeWhile (fun c => decide (c ≠ '\n')) = t := by
    rw [takeWhile_all_append _ t ('\n' :: z) hall]
    simp [List.takeWhile_cons]
  have hdropw : (t ++ '\n' :: z).dropWhile (fun c => decide (c ≠ '\n')) = '\n' :: z := by
    rw [dropWhile_all_append _ t ('\n' :: z) hall]
    simp [List.dropWhile_cons]
  rw [htake, hdropw]
  rw [if_neg (by simp [ht])]
  rfl

theorem childrenMatchAt_no_newline (t : List Char) (hn : '\n' ∉ t) :
    childrenMatchAt (childrenLit ++ t) = none := by
  unfold childrenMatchAt
  have hp : childrenLit.isPrefixOf (childrenLit ++ t) :=
    List.isPrefixOf_iff_prefix.mpr (List.prefix_append _ _)
  rw [if_pos hp]
  dsimp only
  rw [List.drop_left]
  have hall : ∀ x ∈ t, (fun c => decide (c ≠ '\n')) x = true := by
    intro x hx
    simp only [decide_eq_true_eq]
    exact fun hq => hn (hq ▸ hx)
  have hdropw : t.dropWhile (fun c => decide (c ≠ '\n')) = [] := by
    have := dropWhile_all_append (fun c => decide (c ≠ '\n')) t [] hall
    simpa using this
  rw [hdropw]
  rw [if_pos (Or.inr rfl)]

/-! Imperative-section matcher lemmas. -/

theorem findStop_join : ∀ x : List Char, (findStop x).1 ++ (findStop x).2 = x := by
  intro x
  induction x with
  | nil => rfl
  | cons c cs ih =>
    unfold findStop
    by_cases h : stopLit.isPrefixOf (c :: cs)
    · rw [if_pos h]
      rfl
    · rw [if_neg h]
      dsimp only
      rw [List.cons_append, ih]

theorem imperativeMatchAt_head_ne (c : Char) (w : List Char) (hc : c ≠ '#') :
    imperativeMatchAt (c :: w) = none := by
  have hlit : imperativeLit = '#' :: "## Imperative Refs".data := by decide
  have hb : ('#' == c) = false := beq_eq_false_iff_ne.mpr fun h => hc h.symm
  have hnp : imperativeLit.isPrefixOf (c :: w) = false := by
    rw [hlit, isPrefixOf_cons_cons, hb, Bool.false_and]
  unfold imperativeMatchAt
  rw [if_neg (by simp [hnp])]

theorem imperativeMatchAt_nil : imperativeMatchAt [] = none := by decide

theorem imperativeMatchAt_start :
    ∀ cs r, imperativeMatchAt cs = some r → ∃ t, cs = '#' :: t := by
  intro cs r h
  cases cs with
  | nil => rw [imperativeMatchAt_nil] at h; cases h
  | cons c w =>
    by_cases hc : c = '#'
    · exact ⟨w, by rw [hc]⟩
    · rw [imperativeMatchAt_head_ne c w hc] at h; cases h

theorem imperativeMatchAt_ok : MatcherOK imperativeMatchAt := by
  intro cs m r h
  unfold imperativeMatchAt at h
  split at h
  case isTrue hp =>
    dsimp only at h
    simp only [Option.some.injEq, Prod.mk.injEq] at h
    obtain ⟨hm, hr⟩ := h
    obtain ⟨rest, hrest⟩ := List.isPrefixOf_iff_prefix.mp hp
    have hdrop : cs.drop imperativeLit.length = rest := by
      rw [← hrest]; exact List.drop_left _ _
    constructor
    · rw [← hm]
      intro hcontra
      have : imperativeLit = [] := (List.append_eq_nil.mp hcontra).1
      exact absurd this (by decide)
    · rw [← hm, ← hr]
      calc imperativeLit ++ (findStop (cs.drop imperativeLit.length)).1 ++
            (findStop (cs.drop imperativeLit.length)).2
          = imperativeLit ++ ((findStop (cs.drop imperativeLit.length)).1 ++
            (findStop (cs.drop imperativeLit.length)).2) := by simp
        _ = imperativeLit ++ cs.drop imperativeLit.length := by rw [findStop_join]
        _ = cs := by rw [hdrop, hrest]
  case isFalse hp => exact absurd h (by simp)

theorem imperativeMatchAt_at (z : List Char) :
    imperativeMatchAt (imperativeLit ++ z) =
      some (imperativeLit ++ (findStop z).1, (findStop z).2) := by
  unfold imperativeMatchAt
  have hp : imperativeLit.isPrefixOf (imperativeLit ++ z) :=
    List.isPrefixOf_iff_prefix.mpr (List.prefix_append _ _)
  rw [if_pos hp]
  dsimp only
  rw [List.drop_left]

theorem stopLit_not_pref (c : Char) (w : List Char) (hc : c ≠ '\n') :
    stopLit.isPrefixOf (c :: w) = false := by
  have hlit : stopLit = '\n' :: ['#', '#', ' '] := by decide
  have hb : ('\n' == c) = false := beq_eq_false_iff_ne.mpr fun h => hc h.symm
  rw [hlit, isPrefixOf_cons_cons, hb, Bool.false_and]

theorem findStop_at_stop (z : List Char) : findStop (stopLit ++ z) = ([], stopLit ++ z) := by
  have he : stopLit ++ z = '\n' :: (['#', '#', ' '] ++ z) := rfl
  rw [he]
  unfold findStop
  rw [if_pos (by rw [← he]; exact List.isPrefixOf_iff_prefix.mpr (List.prefix_append _ _))]

theorem findStop_stop (b z : List Char) (hb : '\n' ∉ b) :
    findStop (b ++ stopLit ++ z) = (b, stopLit ++ z) := by
  induction b with
  | nil =>
    simp only [List.nil_append]
    exact findStop_at_stop z
  | cons c b' ih =>
    have hcne : c ≠ '\n' := fun h => hb (h ▸ List.mem_cons_self c b')
    have hnotin : '\n' ∉ b' := fun h => hb (List.mem_cons_of_mem c h)
    have he : (c :: b') ++ stopLit ++ z = c :: (b' ++ stopLit ++ z) := by simp
    rw [he]
    unfold findStop
    rw [if_neg (by simp [stopLit_not_pref c _ hcne])]
    dsimp only
    rw [ih hnotin]

theorem findStop_no_newline (c : List Char) (hn : '\n' ∉ c) : findStop c = (c, []) := by
  induction c with
  | nil => rfl
  | cons a c' ih =>
    have hane : a ≠ '\n' := fun h => hn (h ▸ List.mem_cons_self a c')
    have hnotin : '\n' ∉ c' := fun h => hn (List.mem_cons_of_mem a h)
    unfold findStop
    rw [if_neg (by simp [stopLit_not_pref a _ hane])]
    dsimp only
    rw [ih hnotin]

/-! ## Replacement-template lemmas -/

theorem expandRepl_nil (gs : List (List Char)) : expandRepl [] gs = [] := rfl

theorem expandRepl_cons_lit (c : Char) (toks : List ReplTok) (gs : List (List Char)) :
    expandRepl (ReplTok.lit c :: toks) gs = c :: expandRepl toks gs := rfl

theorem expandRepl_cons_group (n : Nat) (toks : List ReplTok) (gs : List (List Char)) :
    expandRepl (ReplTok.group n :: toks) gs = gs.getD (n - 1) [] ++ expandRepl toks gs := rfl

theorem parseRepl_lits (n : Nat) :
    ∀ l : List Char, '\\' ∉ l → parseRepl n l = some (l.map ReplTok.lit) := by
  intro l
  induction l with
  | nil => intro _; rfl
  | cons c rest ih =>
    intro h
    have hc : c ≠ '\\' := fun hq => h (hq ▸ List.mem_cons_self c rest)
    have hr : '\\' ∉ rest := fun hq => h (List.mem_cons_of_mem c hq)
    unfold parseRepl
    rw [if_neg hc, ih hr]
    rfl

theorem parseRepl_lits_group1 :
    ∀ l : List Char, '\\' ∉ l →
      parseRepl 1 (l ++ ['\\', '1']) = some (l.map ReplTok.lit ++ [ReplTok.group 1]) := by
  intro l
  induction l with
  | nil =>
    intro _
    decide
  | cons c rest ih =>
    intro h
    have hc : c ≠ '\\' := fun hq => h (hq ▸ List.mem_cons_self c rest)
    have hr : '\\' ∉ rest := fun hq => h (List.mem_cons_of_mem c hq)
    have he : (c :: rest) ++ ['\\', '1'] = c :: (rest ++ ['\\', '1']) := rfl
    rw [he]
    unfold parseRepl
    rw [if_neg hc, ih hr]
    rfl

theorem expandRepl_lits (gs : List (List Char)) :
    ∀ l : List Char, expandRepl (l.map ReplTok.lit) gs = l := by
  intro l
  induction l with
  | nil => rfl
  | cons c rest ih =>
    rw [List.map_cons, expandRepl_cons_lit, ih]

theorem expandRepl_lits_group1 (mm : List Char) :
    ∀ l : List Char, expandRepl (l.map ReplTok.lit ++ [ReplTok.group 1]) [mm] = l ++ mm := by
  intro l
  induction l with
  | nil =>
    rw [List.map_nil, List.nil_append, expandRepl_cons_group, expandRepl_nil]
    simp
  | cons c rest ih =>
    rw [List.map_cons, List.cons_append, expandRepl_cons_lit, ih]
    rfl

/-! ## Structure of `new_props` -/

theorem foldl_rows (ps : List PropRow) :
    ∀ acc : String, ps.foldl (fun a p => a ++ propRowStr p) acc = acc ++ new_props ps := by
  induction ps with
  | nil => intro acc; rw [List.foldl_nil]; unfold new_props; rw [List.foldl_nil, String.append_empty]
  | cons p ps ih =>
    intro acc
    rw [List.foldl_cons, ih (acc ++ propRowStr p)]
    unfold new_props
    rw [List.foldl_cons, ih ((("" : String)) ++ propRowStr p)]
    rw [show ("" : String) ++ propRowStr p = propRowStr p from rfl, String.append_assoc]
    rfl

theorem new_props_cons (p : PropRow) (ps : List PropRow) :
    new_props (p :: ps) = propRowStr p ++ new_props ps := by
  unfold new_props
  rw [List.foldl_cons, foldl_rows]
  rfl

theorem noBS_append (a b : String) : NoBS (a ++ b) ↔ NoBS a ∧ NoBS b := by
  unfold NoBS
  rw [String.data_append]
  simp [List.mem_append, not_or]

theorem noBS_propRowStr (p : PropRow) (h1 : NoBS p.name) (h2 : NoBS p.ptype)
    (h3 : NoBS p.dflt) (h4 : NoBS p.descr) : NoBS (propRowStr p) := by
  unfold propRowStr
  rw [noBS_append, noBS_append, noBS_append, noBS_append, noBS_append, noBS_append,
    noBS_append, noBS_append]
  refine ⟨⟨⟨⟨⟨⟨⟨⟨?_, h1⟩, ?_⟩, h2⟩, ?_⟩, h3⟩, ?_⟩, h4⟩, ?_⟩ <;> decide

theorem noBS_new_props (props : List PropRow)
    (h : ∀ p ∈ props, NoBS p.name ∧ NoBS p.ptype ∧ NoBS p.dflt ∧ NoBS p.descr) :
    NoBS (new_props props) := by
  induction props with
  | nil => decide
  | cons p ps ih =>
    rw [new_props_cons, noBS_append]
    rcases h p (List.mem_cons_self _ _) with ⟨h1, h2, h3, h4⟩
    exact ⟨noBS_propRowStr p h1 h2 h3 h4, ih fun q hq => h q (List.mem_cons_of_mem p hq)⟩

theorem new_props_ne_empty (p : PropRow) (ps : List PropRow) :
    (new_props (p :: ps)).data ≠ [] := by
  rw [new_props_cons, String.data_append]
  intro h
  have h1 : (propRowStr p).data = [] := (List.append_eq_nil.mp h).1
  unfold propRowStr at h1
  rw [String.data_append] at h1
  have h2 := (List.append_eq_nil.mp h1).1
  rw [String.data_append] at h2
  have h3 := (List.append_eq_nil.mp h2).1
  rw [String.data_append] at h3
  have h4 := (List.append_eq_nil.mp h3).1
  rw [String.data_append] at h4
  have h5 := (List.append_eq_nil.mp h4).1
  rw [String.data_append] at h5
  have h6 := (List.append_eq_nil.mp h5).1
  rw [String.data_append] at h6
  have h7 := (List.append_eq_nil.mp h6).1
  rw [String.data_append] at h7
  have h8 := (List.append_eq_nil.mp h7).1
  rw [String.data_append] at h8
  have h9 := (List.append_eq_nil.mp h8).1
  exact absurd h9 (by decide)

/-! ## Derived facts about the two file transformations -/

theorem add_props_literal_eq (props : List PropRow) (content : String)
    (h : NoBS (new_props props)) :
    add_props_to_file props content = some (addPropsLiteral props content) := by
  unfold add_props_to_file
  rw [parseRepl_lits_group1 (new_props props).data h]
  dsimp only
  unfold addPropsLiteral
  congr 2
  exact subAllG_congr_repl childrenMatchAt _ _
    (fun m => expandRepl_lits_group1 m (new_props props).data) content.data

theorem fix_file_literal_eq (component : String) (props : List String) (content : String)
    (h : NoBS (imperativeSection component props)) :
    fix_file component props content =
      some ⟨subAllG imperativeMatchAt
        (fun _ => (imperativeSection component props).data) content.data⟩ := by
  unfold fix_file
  rw [parseRepl_lits 0 (imperativeSection component props).data h]
  dsimp only
  rw [subAllG_congr_repl imperativeMatchAt _ _
    (fun _ => expandRepl_lits [] (imperativeSection component props).data) content.data]

theorem add_props_nomatch (props : List PropRow) (content : String)
    (hbs : NoBS (new_props props))
    (h : findMatchG childrenMatchAt content.data = none) :
    add_props_to_file props content = some content := by
  rw [add_props_literal_eq props content hbs]
  unfold addPropsLiteral
  rw [subAllG_nomatch _ _ _ h]

theorem fix_file_nomatch (component : String) (props : List String) (content : String)
    (hbs : NoBS (imperativeSection component props))
    (h : findMatchG imperativeMatchAt content.data = none) :
    fix_file component props content = some content := by
  rw [fix_file_literal_eq component props content hbs]
  rw [subAllG_nomatch _ _ _ h]

theorem findMatchG_children_skip (a z : List Char) (ha : '|' ∉ a) :
    findMatchG childrenMatchAt (a ++ z) =
      (findMatchG childrenMatchAt z).map fun x => (a ++ x.1, x.2.1, x.2.2) :=
  findMatchG_skip childrenMatchAt '|' childrenMatchAt_start a z ha

theorem findMatchG_imp_skip (a z : List Char) (ha : '#' ∉ a) :
    findMatchG imperativeMatchAt (a ++ z) =
      (findMatchG imperativeMatchAt z).map fun x => (a ++ x.1, x.2.1, x.2.2) :=
  findMatchG_skip imperativeMatchAt '#' imperativeMatchAt_start a z ha

theorem imperativeMatchAt_two_hash (w : List Char) :
    imperativeMatchAt ('#' :: '#' :: ' ' :: w) = none := by
  have hl : imperativeLit = '#' :: '#' :: '#' :: " Imperative Refs".data := by decide
  have hb : (('#' : Char) == ' ') = false := by decide
  have hnp : imperativeLit.isPrefixOf ('#' :: '#' :: ' ' :: w) = false := by
    rw [hl, isPrefixOf_cons_cons, isPrefixOf_cons_cons, isPrefixOf_cons_cons, hb]
    simp
  unfold imperativeMatchAt
  rw [if_neg (by simp [hnp])]

theorem imperativeMatchAt_one_hash (w : List Char) :
    imperativeMatchAt ('#' :: ' ' :: w) = none := by
  have hl : imperativeLit = '#' :: '#' :: '#' :: " Imperative Refs".data := by decide
  have hb : (('#' : Char) == ' ') = false := by decide
  have hnp : imperativeLit.isPrefixOf ('#' :: ' ' :: w) = false := by
    rw [hl, isPrefixOf_cons_cons, isPrefixOf_cons_cons, hb]
    simp
  unfold imperativeMatchAt
  rw [if_neg (by simp [hnp])]

theorem findMatchG_imp_stop_skip (w : List Char) :
    findMatchG imperativeMatchAt (stopLit ++ w) =
      (findMatchG imperativeMatchAt w).map fun x => (stopLit ++ x.1, x.2.1, x.2.2) := by
  have e : stopLit ++ w = '\n' :: '#' :: '#' :: ' ' :: w := rfl
  have h1 : imperativeMatchAt ('\n' :: '#' :: '#' :: ' ' :: w) = none :=
    imperativeMatchAt_head_ne _ _ (by decide)
  have h2 : imperativeMatchAt ('#' :: '#' :: ' ' :: w) = none := imperativeMatchAt_two_hash w
  have h3 : imperativeMatchAt ('#' :: ' ' :: w) = none := imperativeMatchAt_one_hash w
  have h4 : imperativeMatchAt (' ' :: w) = none :=
    imperativeMatchAt_head_ne _ _ (by decide)
  rw [e, findMatchG_cons_none _ h1, findMatchG_cons_none _ h2, findMatchG_cons_none _ h3,
    findMatchG_cons_none _ h4]
  have hs : stopLit = '\n' :: '#' :: '#' :: [' '] := by decide
  cases findMatchG imperativeMatchAt w with
  | none => rfl
  | some x => simp [hs]

/-! ## Further scan lemmas for non-matching inputs and growth -/

theorem findMatchG_skip_pos (ma : MatcherT) :
    ∀ (a z : List Char), (∀ i, i < a.length → ma ((a ++ z).drop i) = none) →
      findMatchG ma (a ++ z) = (findMatchG ma z).map fun x => (a ++ x.1, x.2.1, x.2.2) := by
  intro a
  induction a with
  | nil =>
    intro z _
    simp only [List.nil_append]
    cases findMatchG ma z with
    | none => simp
    | some x => simp
  | cons c a' ih =>
    intro z h
    have h0 : ma (c :: (a' ++ z)) = none := by
      have := h 0 (by simp)
      simpa using this
    have e : (c :: a') ++ z = c :: (a' ++ z) := rfl
    have hshift : ∀ i, i < a'.length → ma ((a' ++ z).drop i) = none := by
      intro i hi
      have := h (i + 1) (by simp only [List.length_cons]; omega)
      simpa using this
    rw [e, findMatchG_cons_none ma h0, ih z hshift]
    cases findMatchG ma z with
    | none => rfl
    | some x => simp

theorem findMatchG_none_of_all (ma : MatcherT) :
    ∀ cs : List Char, (∀ i, ma (cs.drop i) = none) → findMatchG ma cs = none := by
  intro cs
  induction cs with
  | nil =>
    intro h
    have h0 := h 0
    simp only [List.drop_nil] at h0
    simp [findMatchG, h0]
  | cons c cs' ih =>
    intro h
    have h0 : ma (c :: cs') = none := by simpa using h 0
    rw [findMatchG_cons_none ma h0, ih fun i => by simpa using h (i + 1)]
    rfl

theorem findMatchG_of_matchAt (ma : MatcherT) (hok : MatcherOK ma) (cs m r : List Char)
    (h : ma cs = some (m, r)) : findMatchG ma cs = some ([], m, r) := by
  rcases hok cs m r h with ⟨hne, happ⟩
  cases cs with
  | nil =>
    rw [matcherOK_nil_none ma hok] at h
    cases h
  | cons c cs' => exact findMatchG_cons_some ma h

theorem findMatchG_ne_none_of_suffix (ma : MatcherT) (u v : List Char) (h : ma v ≠ none) :
    findMatchG ma (u ++ v) ≠ none := by
  induction u with
  | nil =>
    simp only [List.nil_append]
    cases hma : ma v with
    | none => exact absurd hma h
    | some x =>
      obtain ⟨m, r⟩ := x
      cases v with
      | nil => simp [findMatchG, hma]
      | cons c w => rw [findMatchG_cons_some ma hma]; simp
  | cons c u' ih =>
    have he : (c :: u') ++ v = c :: (u' ++ v) := rfl
    rw [he]
    cases hma : ma (c :: (u' ++ v)) with
    | some x =>
      obtain ⟨m, r⟩ := x
      rw [findMatchG_cons_some ma hma]
      simp
    | none =>
      rw [findMatchG_cons_none ma hma]
      intro hcontra
      exact ih (Option.map_eq_none'.mp hcontra)

theorem childrenMatchAt_not_pref (cs : List Char)
    (h : ¬ childrenLit.isPrefixOf cs = true) : childrenMatchAt cs = none := by
  unfold childrenMatchAt
  rw [if_neg h]

theorem childrenMatchAt_match_shape (cs m r : List Char) (h : childrenMatchAt cs = some (m, r)) :
    ∃ run, m = childrenLit ++ run ++ ['\n'] ∧ run ≠ [] ∧ '\n' ∉ run := by
  unfold childrenMatchAt at h
  split at h
  case isTrue hp =>
    dsimp only at h
    split at h
    case isTrue hcond => exact absurd h (by simp)
    case isFalse hcond =>
      push_neg at hcond
      simp only [Option.some.injEq, Prod.mk.injEq] at h
      obtain ⟨hm, _⟩ := h
      refine ⟨cs.drop childrenLit.length |>.takeWhile (fun c => decide (c ≠ '\n')), hm.symm,
        hcond.1, ?_⟩
      intro hmem
      have := List.mem_takeWhile_imp hmem
      simp at this
  case isFalse hp => exact absurd h (by simp)

theorem subAllG_len_ge (ma : MatcherT) (hok : MatcherOK ma) (rows : List Char) :
    ∀ n (cs : List Char), cs.length ≤ n →
      cs.length ≤ (subAllG ma (fun m => rows ++ m) cs).length := by
  intro n
  induction n using Nat.strong_induction_on with
  | _ n ih =>
    intro cs hlen
    cases hfm : findMatchG ma cs with
    | none => rw [subAllG_nomatch ma _ cs hfm]
    | some x =>
      obtain ⟨p, m, r⟩ := x
      rcases findMatchG_some_decomp ma hok cs p m r hfm with ⟨happ, hne⟩
      have hm1 : 1 ≤ m.length := List.length_pos.mpr hne
      have hcl : cs.length = p.length + m.length + r.length := by
        rw [happ]; simp only [List.length_append]
      rw [subAllG_split ma hok _ cs p m r hfm]
      have hr := ih r.length (by omega) r le_rfl
      simp only [List.length_append]
      omega

theorem subAllG_len_lt (ma : MatcherT) (hok : MatcherOK ma) (rows : List Char)
    (hrow : rows ≠ []) (cs : List Char) (h : findMatchG ma cs ≠ none) :
    cs.length < (subAllG ma (fun m => rows ++ m) cs).length := by
  cases hfm : findMatchG ma cs with
  | none => exact absurd hfm h
  | some x =>
    obtain ⟨p, m, r⟩ := x
    rcases findMatchG_some_decomp ma hok cs p m r hfm with ⟨happ, hne⟩
    have hm1 : 1 ≤ m.length := List.length_pos.mpr hne
    have hrow1 : 1 ≤ rows.length := List.length_pos.mpr hrow
    have hcl : cs.length = p.length + m.length + r.length := by
      rw [happ]; simp only [List.length_append]
    rw [subAllG_split ma hok _ cs p m r hfm]
    have hr := subAllG_len_ge ma hok rows r.length r le_rfl
    simp only [List.length_append]
    omega

theorem findMatchG_some_matchAt (ma : MatcherT) (hok : MatcherOK ma) :
    ∀ cs p m r, findMatchG ma cs = some (p, m, r) → ma (m ++ r) = some (m, r) := by
  intro cs
  induction cs with
  | nil =>
    intro p m r h
    rw [findMatchG_nil ma hok] at h
    cases h
  | cons c cs' ih =>
    intro p m r h
    cases hma : ma (c :: cs') with
    | some x =>
      obtain ⟨m0, r0⟩ := x
      rw [findMatchG_cons_some ma hma] at h
      simp only [Option.some.injEq, Prod.mk.injEq] at h
      obtain ⟨_, hm, hr⟩ := h
      rcases hok (c :: cs') m0 r0 hma with ⟨_, happ⟩
      subst hm hr
      rw [happ]
      exact hma
    | none =>
      rw [findMatchG_cons_none ma hma] at h
      cases hfm : findMatchG ma cs' with
      | none => rw [hfm] at h; cases h
      | some x =>
        obtain ⟨p0, m0, r0⟩ := x
        rw [hfm] at h
        simp only [Option.map_some', Option.some.injEq, Prod.mk.injEq] at h
        obtain ⟨_, hm, hr⟩ := h
        subst hm hr
        exact ih p0 m0 r0 hfm

theorem subAllG_children_preserves_match (rows cs p m r : List Char)
    (h : findMatchG childrenMatchAt cs = some (p, m, r)) :
    findMatchG childrenMatchAt (subAllG childrenMatchAt (fun x => rows ++ x) cs) ≠ none := by
  obtain ⟨run, hm, hrun, hnr⟩ :=
    childrenMatchAt_match_shape (m ++ r) m r
      (findMatchG_some_matchAt childrenMatchAt childrenMatchAt_ok cs p m r h)
  rw [subAllG_split childrenMatchAt childrenMatchAt_ok _ cs p m r h]
  have hv : childrenMatchAt (m ++ subAllG childrenMatchAt (fun x => rows ++ x) r) ≠ none := by
    rw [hm]
    have e : (childrenLit ++ run ++ ['\n']) ++ subAllG childrenMatchAt (fun x => rows ++ x) r =
        childrenLit ++ (run ++ '\n' :: subAllG childrenMatchAt (fun x => rows ++ x) r) := by
      simp
    rw [e, childrenMatchAt_at run _ hrun hnr]
    simp
  have e2 : p ++ (rows ++ m) ++ subAllG childrenMatchAt (fun x => rows ++ x) r =
      (p ++ rows) ++ (m ++ subAllG childrenMatchAt (fun x => rows ++ x) r) := by simp
  rw [e2]
  exact findMatchG_ne_none_of_suffix childrenMatchAt _ _ hv

theorem subAllG_assemble (rows : List Char) :
    ∀ (parts : List (List Char × List Char)) (tail : List Char), SegsOk parts tail →
      subAllG childrenMatchAt (fun m => rows ++ m) (assemble parts tail) =
        assembleIns rows parts tail := by
  intro parts
  induction parts with
  | nil =>
    intro tail hok
    unfold SegsOk at hok
    exact subAllG_nomatch _ _ tail hok
  | cons pt rest ih =>
    intro tail hok
    obtain ⟨seg, t⟩ := pt
    unfold SegsOk at hok
    obtain ⟨ht, hn, hseg, hrest⟩ := hok
    have hA : childrenMatchAt (anchorLine t ++ assemble rest tail) =
        some (anchorLine t, assemble rest tail) := by
      have e : anchorLine t ++ assemble rest tail =
          childrenLit ++ (t ++ '\n' :: assemble rest tail) := by
        unfold anchorLine
        simp
      rw [e, childrenMatchAt_at t (assemble rest tail) ht hn]
      rfl
    have hfm : findMatchG childrenMatchAt (assemble ((seg, t) :: rest) tail) =
        some (seg, anchorLine t, assemble rest tail) := by
      show findMatchG childrenMatchAt (seg ++ (anchorLine t ++ assemble rest tail)) = _
      rw [findMatchG_skip_pos childrenMatchAt seg _ hseg,
        findMatchG_of_matchAt childrenMatchAt childrenMatchAt_ok _ _ _ hA]
      simp
    rw [subAllG_split childrenMatchAt childrenMatchAt_ok _ _ _ _ _ hfm, ih tail hrest]
    show _ = seg ++ (rows ++ (anchorLine t ++ assembleIns rows rest tail))
    simp

theorem subAllG_assembleSec (S : List Char) :
    ∀ (parts : List (List Char × List Char)) (tail : List Char), SecOk parts tail →
      subAllG imperativeMatchAt (fun _ => S) (assembleSec parts tail) =
        assembleSecIns S parts tail := by
  intro parts
  induction parts with
  | nil =>
    intro tail hok
    unfold SecOk at hok
    exact subAllG_nomatch _ _ tail hok
  | cons pt rest ih =>
    intro tail hok
    obtain ⟨seg, b⟩ := pt
    unfold SecOk at hok
    obtain ⟨hseg, hstop, hrest⟩ := hok
    have hA : imperativeMatchAt (imperativeLit ++ (b ++ assembleSec rest tail)) =
        some (imperativeLit ++ b, assembleSec rest tail) := by
      rw [imperativeMatchAt_at, hstop]
    have hfm : findMatchG imperativeMatchAt (assembleSec ((seg, b) :: rest) tail) =
        some (seg, imperativeLit ++ b, assembleSec rest tail) := by
      show findMatchG imperativeMatchAt
          (seg ++ (imperativeLit ++ (b ++ assembleSec rest tail))) = _
      rw [findMatchG_skip_pos imperativeMatchAt seg _ hseg,
        findMatchG_of_matchAt imperativeMatchAt imperativeMatchAt_ok _ _ _ hA]
      simp
    rw [subAllG_split imperativeMatchAt imperativeMatchAt_ok _ _ _ _ _ hfm, ih tail hrest]
    show _ = seg ++ (S ++ assembleSecIns S rest tail)
    simp


/-! ## Claim theorems -/

/-- C6: on a file consisting of the single children table-row line, the Row
Injector with prop list `[("wet","number","0.3","desc")]` produces the new
row `| `wet` | `number` | `0.3` | desc |` immediately preceding the original
children line, leaving the children line itself byte-for-byte unmodified. -/
theorem add_props_scenario_wet :
    add_props_to_file [⟨"wet", "number", "0.3", "desc"⟩]
      "| `children` | `ReactNode` | - | Child nodes |\n" =
      some ("| `wet` | `number` | `0.3` | desc |\n" ++
        "| `children` | `ReactNode` | - | Child nodes |\n") := by
  decide

/-- C7: when the children anchor (Row Injector) or the `### Imperative Refs`
heading (Section Replacer) does not match anywhere in the content, the
operation raises no error and returns the content unchanged, byte for byte
(given the script's backslash-free replacement data, under which the
replacement template is well formed). -/
theorem absent_anchor_noop (props : List PropRow) (component : String) (ps : List String)
    (content : String)
    (hbs1 : NoBS (new_props props)) (hbs2 : NoBS (imperativeSection component ps))
    (h1 : findMatchG childrenMatchAt content.data = none)
    (h2 : findMatchG imperativeMatchAt content.data = none) :
    add_props_to_file props content = some content ∧
      fix_file component ps content = some content :=
  ⟨add_props_nomatch props content hbs1 h1, fix_file_nomatch component ps content hbs2 h2⟩

/-- Witness for C7 at a concrete anchor-free and heading-free content. -/
theorem absent_anchor_noop_witness :
    NoBS (new_props [⟨"wet", "number", "0.3", "desc"⟩]) ∧
    NoBS (imperativeSection "Reverb" ["wet"]) ∧
    findMatchG childrenMatchAt ("# Reverb doc\nNo tables here.\n" : String).data = none ∧
    findMatchG imperativeMatchAt ("# Reverb doc\nNo tables here.\n" : String).data = none ∧
    (add_props_to_file [⟨"wet", "number", "0.3", "desc"⟩] "# Reverb doc\nNo tables here.\n" =
        some "# Reverb doc\nNo tables here.\n" ∧
      fix_file "Reverb" ["wet"] "# Reverb doc\nNo tables here.\n" =
        some "# Reverb doc\nNo tables here.\n") :=
  ⟨by decide, by decide, by decide, by decide,
    absent_anchor_noop [⟨"wet", "number", "0.3", "desc"⟩] "Reverb" ["wet"]
      "# Reverb doc\nNo tables here.\n" (by decide) (by decide) (by decide) (by decide)⟩

/-- C10: the anchor pattern requires a terminating newline: at a children
row that ends the file without a trailing newline the matcher does not
match, and if that is the only place the children literal occurs, the Row
Injector leaves the content unchanged. -/
theorem anchor_requires_trailing_newline (props : List PropRow) (a t : List Char)
    (hbs : NoBS (new_props props)) (hn : '\n' ∉ t)
    (honly : ∀ i, i < (a ++ childrenLit ++ t).length →
      childrenLit.isPrefixOf ((a ++ childrenLit ++ t).drop i) → i = a.length) :
    childrenMatchAt (childrenLit ++ t) = none ∧
      add_props_to_file props ⟨a ++ childrenLit ++ t⟩ = some ⟨a ++ childrenLit ++ t⟩ := by
  have hnm := childrenMatchAt_no_newline t hn
  refine ⟨hnm, add_props_nomatch props ⟨a ++ childrenLit ++ t⟩ hbs ?_⟩
  apply findMatchG_none_of_all
  intro i
  by_cases hi : i < (a ++ childrenLit ++ t).length
  · by_cases hpre : childrenLit.isPrefixOf ((a ++ childrenLit ++ t).drop i) = true
    · have hia : i = a.length := honly i hi hpre
      subst hia
      have hd : (a ++ childrenLit ++ t).drop a.length = childrenLit ++ t := by
        rw [List.append_assoc]
        exact List.drop_left _ _
      rw [hd]
      exact hnm
    · exact childrenMatchAt_not_pref _ hpre
  · have hd : (a ++ childrenLit ++ t).drop i = [] := List.drop_eq_nil_of_le (by omega)
    rw [hd]
    exact childrenMatchAt_nil

/-- Witness for C10: a document whose only children row is its final line
and which lacks a trailing newline is left untouched. -/
theorem anchor_requires_trailing_newline_witness :
    NoBS (new_props [⟨"wet", "number", "0.3", "desc"⟩]) ∧
    '\n' ∉ (" `ReactNode` | - | Child nodes |".data) ∧
    (∀ i, i < (("# Reverb\n\n".data ++ childrenLit ++ " `ReactNode` | - | Child nodes |".data)).length →
      childrenLit.isPrefixOf
        (("# Reverb\n\n".data ++ childrenLit ++ " `ReactNode` | - | Child nodes |".data).drop i) →
      i = "# Reverb\n\n".data.length) ∧
    (childrenMatchAt (childrenLit ++ " `ReactNode` | - | Child nodes |".data) = none ∧
      add_props_to_file [⟨"wet", "number", "0.3", "desc"⟩]
          ⟨"# Reverb\n\n".data ++ childrenLit ++ " `ReactNode` | - | Child nodes |".data⟩ =
        some ⟨"# Reverb\n\n".data ++ childrenLit ++ " `ReactNode` | - | Child nodes |".data⟩) :=
  ⟨by decide, by decide, by decide,
    anchor_requires_trailing_newline [⟨"wet", "number", "0.3", "desc"⟩]
      "# Reverb\n\n".data " `ReactNode` | - | Child nodes |".data
      (by decide) (by decide) (by decide)⟩

/-- C9: the Row Injector passes `new_props + r'\1'` to `re.sub` as a
replacement template; when no prop field contains a backslash the
substitution is purely textual (the inserted text is the formatted rows,
character for character, and no error is raised), and this guarantee fails
for a description containing a backslash (`"a\nb"` with a literal
backslash-n is inserted as a real newline). -/
theorem add_props_template_literal :
    (∀ (props : List PropRow) (content : String),
        (∀ p ∈ props, NoBS p.name ∧ NoBS p.ptype ∧ NoBS p.dflt ∧ NoBS p.descr) →
        add_props_to_file props content = some (addPropsLiteral props content)) ∧
      add_props_to_file [⟨"wet", "number", "0.3", "a\\nb"⟩] "| `children` | x |\n" ≠
        some (addPropsLiteral [⟨"wet", "number", "0.3", "a\\nb"⟩] "| `children` | x |\n") := by
  constructor
  · intro props content h
    exact add_props_literal_eq props content (noBS_new_props props h)
  · decide

/-- Witness for C9 at a concrete backslash-free prop list. -/
theorem add_props_template_literal_witness :
    add_props_to_file [⟨"wet", "number", "0.3", "desc"⟩] "| `children` | x |\n" =
      some (addPropsLiteral [⟨"wet", "number", "0.3", "desc"⟩] "| `children` | x |\n") :=
  add_props_template_literal.1 [⟨"wet", "number", "0.3", "desc"⟩] "| `children` | x |\n"
    (by decide)

/-- C5: the Row Injector is not idempotent: on any content in which the
anchor matches, with a non-empty (backslash-free) prop list, applying the
transformation to its own output inserts the rows again, so the second
result differs from the first. -/
theorem add_props_not_idempotent (props : List PropRow) (content out out2 : String)
    (hne : props ≠ []) (hbs : NoBS (new_props props))
    (hmatch : findMatchG childrenMatchAt content.data ≠ none)
    (h1 : add_props_to_file props content = some out)
    (h2 : add_props_to_file props out = some out2) :
    out2 ≠ out := by
  rw [add_props_literal_eq props content hbs] at h1
  rw [add_props_literal_eq props out hbs] at h2
  have ho : out = addPropsLiteral props content := by
    injection h1 with h'
    exact h'.symm
  have ho2 : out2 = addPropsLiteral props out := by
    injection h2 with h'
    exact h'.symm
  cases props with
  | nil => exact absurd rfl hne
  | cons p ps =>
    have hrow : (new_props (p :: ps)).data ≠ [] := new_props_ne_empty p ps
    cases hfm : findMatchG childrenMatchAt content.data with
    | none => exact absurd hfm hmatch
    | some x =>
      obtain ⟨pp, mm, rr⟩ := x
      have hout_match : findMatchG childrenMatchAt out.data ≠ none := by
        rw [ho]
        exact subAllG_children_preserves_match (new_props (p :: ps)).data content.data
          pp mm rr hfm
      have hlt : out.data.length < out2.data.length := by
        rw [ho2]
        exact subAllG_len_lt childrenMatchAt childrenMatchAt_ok (new_props (p :: ps)).data
          hrow out.data hout_match
      intro heq
      rw [heq] at hlt
      omega

/-- Witness for C5: running the Row Injector twice on a one-line children
file duplicates the inserted row. -/
theorem add_props_not_idempotent_witness :
    ([⟨"wet", "number", "0.3", "d"⟩] : List PropRow) ≠ [] ∧
    NoBS (new_props [⟨"wet", "number", "0.3", "d"⟩]) ∧
    findMatchG childrenMatchAt ("| `children` | x |\n" : String).data ≠ none ∧
    add_props_to_file [⟨"wet", "number", "0.3", "d"⟩] "| `children` | x |\n" =
      some "| `wet` | `number` | `0.3` | d |\n| `children` | x |\n" ∧
    add_props_to_file [⟨"wet", "number", "0.3", "d"⟩]
        "| `wet` | `number` | `0.3` | d |\n| `children` | x |\n" =
      some "| `wet` | `number` | `0.3` | d |\n| `wet` | `number` | `0.3` | d |\n| `children` | x |\n" ∧
    ("| `wet` | `number` | `0.3` | d |\n| `wet` | `number` | `0.3` | d |\n| `children` | x |\n" : String) ≠
      "| `wet` | `number` | `0.3` | d |\n| `children` | x |\n" :=
  ⟨by decide, by decide, by decide, by decide, by decide,
    add_props_not_idempotent [⟨"wet", "number", "0.3", "d"⟩] "| `children` | x |\n"
      "| `wet` | `number` | `0.3` | d |\n| `children` | x |\n"
      "| `wet` | `number` | `0.3` | d |\n| `wet` | `number` | `0.3` | d |\n| `children` | x |\n"
      (by decide) (by decide) (by decide) (by decide) (by decide)⟩

/-- Counterexample to C1 as stated: on a content with two anchor lines the
Row Injector inserts the rows before *both* (`re.sub` with default count
replaces every match), so the text after the first anchor is modified,
contrary to "the first matching anchor line only". -/
theorem add_props_first_only_cex :
    add_props_to_file [⟨"wet", "number", "0.3", "d"⟩]
      "| `children` | a |\nMID\n| `children` | b |\n" =
      some ("| `wet` | `number` | `0.3` | d |\n| `children` | a |\nMID\n" ++
        "| `wet` | `number` | `0.3` | d |\n| `children` | b |\n") ∧
    ("| `wet` | `number` | `0.3` | d |\n| `children` | a |\nMID\n" ++
        "| `wet` | `number` | `0.3` | d |\n| `children` | b |\n" : String) ≠
      "| `wet` | `number` | `0.3` | d |\n| `children` | a |\nMID\n| `children` | b |\n" := by
  constructor
  · decide
  · decide

/-- C1 (amended): the Row Injector inserts the constructed prop rows
immediately before *every* line matching the anchor pattern, not only the
first: for every content decomposing into arbitrary segments (which may
contain table pipes and any other text) and one or more anchor lines, with
the anchor pattern matching exactly at those anchors (`SegsOk`), every
anchor receives the rows, and all segments and anchor lines are preserved
byte for byte. -/
theorem add_props_every_anchor (props : List PropRow)
    (parts : List (List Char × List Char)) (tail : List Char)
    (hbs : NoBS (new_props props)) (hok : SegsOk parts tail) :
    add_props_to_file props ⟨assemble parts tail⟩ =
      some ⟨assembleIns (new_props props).data parts tail⟩ := by
  rw [add_props_literal_eq props _ hbs]
  exact congrArg (fun l => some (String.mk l))
    (subAllG_assemble (new_props props).data parts tail hok)

/-- Witness for the amended C1 on a realistic two-anchor document full of
table pipes. -/
theorem add_props_every_anchor_witness :
    NoBS (new_props [⟨"wet", "number", "0.3", "d"⟩]) ∧
    SegsOk
      [("# Reverb\n\n## Props\n\n| Prop | Type | Default | Description |\n|------|------|---------|-------------|\n".data,
        " `ReactNode` | - | Child nodes |".data),
       ("| `wet` | `number` | `0.3` | Mix |\n\n## Usage\n".data,
        " `ReactNode` | - | More |".data)]
      "\nClosing | pipes.\n".data ∧
    add_props_to_file [⟨"wet", "number", "0.3", "d"⟩]
        ⟨assemble
          [("# Reverb\n\n## Props\n\n| Prop | Type | Default | Description |\n|------|------|---------|-------------|\n".data,
            " `ReactNode` | - | Child nodes |".data),
           ("| `wet` | `number` | `0.3` | Mix |\n\n## Usage\n".data,
            " `ReactNode` | - | More |".data)]
          "\nClosing | pipes.\n".data⟩ =
      some ⟨assembleIns (new_props [⟨"wet", "number", "0.3", "d"⟩]).data
        [("# Reverb\n\n## Props\n\n| Prop | Type | Default | Description |\n|------|------|---------|-------------|\n".data,
          " `ReactNode` | - | Child nodes |".data),
         ("| `wet` | `number` | `0.3` | Mix |\n\n## Usage\n".data,
          " `ReactNode` | - | More |".data)]
        "\nClosing | pipes.\n".data⟩ :=
  ⟨by decide, by decide,
    add_props_every_anchor [⟨"wet", "number", "0.3", "d"⟩]
      [("# Reverb\n\n## Props\n\n| Prop | Type | Default | Description |\n|------|------|---------|-------------|\n".data,
        " `ReactNode` | - | Child nodes |".data),
       ("| `wet` | `number` | `0.3` | Mix |\n\n## Usage\n".data,
        " `ReactNode` | - | More |".data)]
      "\nClosing | pipes.\n".data (by decide) (by decide)⟩

/-- Helper: on a document with two `### Imperative Refs` headings (the
first section delimited by the next `## ` heading, the second running to
end of file), `fix_file` replaces both sections. -/
theorem fix_file_two_sections (component : String) (ps : List String) (a b mid c : List Char)
    (hbs : NoBS (imperativeSection component ps))
    (ha : '#' ∉ a) (hb : '\n' ∉ b) (hmid : '#' ∉ mid) (hc : '\n' ∉ c) :
    fix_file component ps
        ⟨a ++ imperativeLit ++ b ++ stopLit ++ mid ++ imperativeLit ++ c⟩ =
      some ⟨a ++ (imperativeSection component ps).data ++ stopLit ++ mid ++
        (imperativeSection component ps).data⟩ := by
  have hfs1 : findStop (b ++ (stopLit ++ (mid ++ (imperativeLit ++ c)))) =
      (b, stopLit ++ (mid ++ (imperativeLit ++ c))) := by
    have e : b ++ (stopLit ++ (mid ++ (imperativeLit ++ c))) =
        b ++ stopLit ++ (mid ++ (imperativeLit ++ c)) := by simp
    rw [e]
    exact findStop_stop b _ hb
  have hm1 : imperativeMatchAt
      (imperativeLit ++ (b ++ (stopLit ++ (mid ++ (imperativeLit ++ c))))) =
      some (imperativeLit ++ b, stopLit ++ (mid ++ (imperativeLit ++ c))) := by
    rw [imperativeMatchAt_at, hfs1]
  have hm2 : imperativeMatchAt (imperativeLit ++ c) = some (imperativeLit ++ c, []) := by
    rw [imperativeMatchAt_at, findStop_no_newline c hc]
  have hfm1 : findMatchG imperativeMatchAt
      (a ++ imperativeLit ++ b ++ stopLit ++ mid ++ imperativeLit ++ c) =
      some (a, imperativeLit ++ b, stopLit ++ (mid ++ (imperativeLit ++ c))) := by
    have e : a ++ imperativeLit ++ b ++ stopLit ++ mid ++ imperativeLit ++ c =
        a ++ (imperativeLit ++ (b ++ (stopLit ++ (mid ++ (imperativeLit ++ c))))) := by
      simp
    rw [e, findMatchG_imp_skip a _ ha,
      findMatchG_of_matchAt imperativeMatchAt imperativeMatchAt_ok _ _ _ hm1]
    simp
  have hfm2 : findMatchG imperativeMatchAt (stopLit ++ (mid ++ (imperativeLit ++ c))) =
      some (stopLit ++ mid, imperativeLit ++ c, []) := by
    rw [findMatchG_imp_stop_skip, findMatchG_imp_skip mid _ hmid,
      findMatchG_of_matchAt imperativeMatchAt imperativeMatchAt_ok _ _ _ hm2]
    simp
  rw [fix_file_literal_eq _ _ _ hbs]
  have hmain : subAllG imperativeMatchAt (fun _ => (imperativeSection component ps).data)
      (a ++ imperativeLit ++ b ++ stopLit ++ mid ++ imperativeLit ++ c) =
      a ++ (imperativeSection component ps).data ++ stopLit ++ mid ++
        (imperativeSection component ps).data := by
    rw [subAllG_split imperativeMatchAt imperativeMatchAt_ok _ _ _ _ _ hfm1,
      subAllG_split imperativeMatchAt imperativeMatchAt_ok _ _ _ _ _ hfm2,
      subAllG_nomatch _ _ [] (findMatchG_nil imperativeMatchAt imperativeMatchAt_ok)]
    simp
  exact congrArg (fun l => some (String.mk l)) hmain

/-- Counterexample to C2 as stated: with two `### Imperative Refs` headings
the Section Replacer substitutes at *both* matches (`re.sub` with default
count), so the second heading's section is not left unchanged: the output
ends with the rendered section where the claim predicts the original
`### Imperative Refs B` text. -/
theorem fix_file_first_only_cex :
    fix_file "C" ["p"] "### Imperative Refs A\n## X\n### Imperative Refs B" =
      some (imperativeSection "C" ["p"] ++ "\n## X\n" ++ imperativeSection "C" ["p"]) ∧
    (imperativeSection "C" ["p"] ++ "\n## X\n" ++ imperativeSection "C" ["p"]) ≠
      (imperativeSection "C" ["p"] ++ "\n## X\n" ++ "### Imperative Refs B") := by
  constructor
  · have h := fix_file_two_sections "C" ["p"] [] " A".data "X\n".data " B".data
      (by decide) (by decide) (by decide) (by decide) (by decide)
    have e1 : ("### Imperative Refs A\n## X\n### Imperative Refs B" : String) =
        ⟨[] ++ imperativeLit ++ " A".data ++ stopLit ++ "X\n".data ++ imperativeLit ++
          " B".data⟩ := by decide
    rw [e1, h]
    refine congrArg some (String.ext ?_)
    show [] ++ (imperativeSection "C" ["p"]).data ++ stopLit ++ "X\n".data ++
        (imperativeSection "C" ["p"]).data =
      (imperativeSection "C" ["p"] ++ "\n## X\n" ++ imperativeSection "C" ["p"]).data
    simp only [String.data_append, List.nil_append, List.append_assoc]
    rw [← List.append_assoc stopLit]
    rw [show stopLit ++ "X\n".data = ("\n## X\n" : String).data from by decide]
  · intro heq
    have hd := congrArg String.data heq
    simp only [String.data_append, List.append_assoc] at hd
    have h1 := List.append_cancel_left hd
    have h2 := List.append_cancel_left h1
    have hlen := congrArg List.length h2
    rw [show (("### Imperative Refs B" : String).data).length = 21 from by decide] at hlen
    have : (imperativeSection "C" ["p"]).data.length ≠ 21 := by decide
    exact this hlen

/-- C2 (amended): the Section Replacer substitutes the rendered section at
*every* occurrence of the `### Imperative Refs` heading, not only the
first: for every content decomposing into arbitrary segments (which may
contain `#` characters, newlines and headings of other levels) and one or
more heading-delimited section regions, with the heading pattern matching
exactly at those headings and each multi-line body running to the next
`\n## ` or to end of file (`SecOk`), every section region is replaced by
the rendered section and all segments are preserved byte for byte. -/
theorem fix_file_every_heading (component : String) (ps : List String)
    (parts : List (List Char × List Char)) (tail : List Char)
    (hbs : NoBS (imperativeSection component ps)) (hok : SecOk parts tail) :
    fix_file component ps ⟨assembleSec parts tail⟩ =
      some ⟨assembleSecIns (imperativeSection component ps).data parts tail⟩ := by
  rw [fix_file_literal_eq _ _ _ hbs]
  exact congrArg (fun l => some (String.mk l))
    (subAllG_assembleSec (imperativeSection component ps).data parts tail hok)

/-- Witness for the amended C2 on a realistic two-heading document with
multi-line bodies and `#` headings in the segments. -/
theorem fix_file_every_heading_witness :
    NoBS (imperativeSection "Reverb" ["wet"]) ∧
    SecOk
      [("# Reverb\n\n## Props\ntable stuff\n\n".data,
        "\n\nOld imperative text.\n```tsx\nconst x = 1;\n```\n".data),
       ("\n## Usage\nSee examples with # marks.\n".data,
        "\nSecond old body\nwith lines\n".data)]
      [] ∧
    fix_file "Reverb" ["wet"]
        ⟨assembleSec
          [("# Reverb\n\n## Props\ntable stuff\n\n".data,
            "\n\nOld imperative text.\n```tsx\nconst x = 1;\n```\n".data),
           ("\n## Usage\nSee examples with # marks.\n".data,
            "\nSecond old body\nwith lines\n".data)]
          []⟩ =
      some ⟨assembleSecIns (imperativeSection "Reverb" ["wet"]).data
        [("# Reverb\n\n## Props\ntable stuff\n\n".data,
          "\n\nOld imperative text.\n```tsx\nconst x = 1;\n```\n".data),
         ("\n## Usage\nSee examples with # marks.\n".data,
          "\nSecond old body\nwith lines\n".data)]
        []⟩ :=
  ⟨by decide, by decide,
    fix_file_every_heading "Reverb" ["wet"]
      [("# Reverb\n\n## Props\ntable stuff\n\n".data,
        "\n\nOld imperative text.\n```tsx\nconst x = 1;\n```\n".data),
       ("\n## Usage\nSee examples with # marks.\n".data,
        "\nSecond old body\nwith lines\n".data)]
      [] (by decide) (by decide)⟩

/-- C4: the region the Section Replacer substitutes spans exactly from the
`### Imperative Refs` heading up to (but not including) the next `\n## `
heading — or to end of file when none follows (`c = []` is allowed by the
`findStop` hypothesis) — and every byte outside that span (the prefix `a`,
which may contain `#` characters and headings of other levels, and the
suffix `c`) is unchanged in the output. -/
theorem fix_file_frame (component : String) (ps : List String) (a b c : List Char)
    (hbs : NoBS (imperativeSection component ps))
    (ha : ∀ i, i < a.length →
      imperativeMatchAt ((a ++ (imperativeLit ++ (b ++ c))).drop i) = none)
    (hstop : findStop (b ++ c) = (b, c))
    (hnone : findMatchG imperativeMatchAt c = none) :
    fix_file component ps ⟨a ++ (imperativeLit ++ (b ++ c))⟩ =
      some ⟨a ++ ((imperativeSection component ps).data ++ c)⟩ := by
  have hok : SecOk [(a, b)] c := ⟨ha, hstop, hnone⟩
  rw [fix_file_literal_eq _ _ _ hbs]
  exact congrArg (fun l => some (String.mk l))
    (subAllG_assembleSec (imperativeSection component ps).data [(a, b)] c hok)

/-- Witness for C4 on a document whose prefix contains `#` headings and
whose multi-line imperative-refs section is delimited by a following
`## ` heading. -/
theorem fix_file_frame_witness :
    NoBS (imperativeSection "Reverb" ["wet"]) ∧
    (∀ i, i < ("# Reverb\n\n## Props\ntable here\n\n".data).length →
      imperativeMatchAt (("# Reverb\n\n## Props\ntable here\n\n".data ++
        (imperativeLit ++ ("\n\nOld body line one\nline two\n".data ++
          "\n## Next\ntail with # chars\n".data))).drop i) = none) ∧
    findStop ("\n\nOld body line one\nline two\n".data ++
        "\n## Next\ntail with # chars\n".data) =
      ("\n\nOld body line one\nline two\n".data, "\n## Next\ntail with # chars\n".data) ∧
    findMatchG imperativeMatchAt ("\n## Next\ntail with # chars\n".data) = none ∧
    fix_file "Reverb" ["wet"]
        ⟨"# Reverb\n\n## Props\ntable here\n\n".data ++
          (imperativeLit ++ ("\n\nOld body line one\nline two\n".data ++
            "\n## Next\ntail with # chars\n".data))⟩ =
      some ⟨"# Reverb\n\n## Props\ntable here\n\n".data ++
        ((imperativeSection "Reverb" ["wet"]).data ++ "\n## Next\ntail with # chars\n".data)⟩ :=
  ⟨by decide, by decide, by decide, by decide,
    fix_file_frame "Reverb" ["wet"] "# Reverb\n\n## Props\ntable here\n\n".data
      "\n\nOld body line one\nline two\n".data "\n## Next\ntail with # chars\n".data
      (by decide) (by decide) (by decide) (by decide)⟩

/-! ## The Page Generator's derived identifiers (C3) -/

theorem pyCapHead_eq (n : String) (h : n ≠ "") : pyCapHead n = some (specUpperFirst n) := by
  unfold pyCapHead specUpperFirst
  cases hn : n.data with
  | nil =>
    exfalso
    apply h
    apply String.ext
    rw [hn]
  | cons c rest =>
    rfl

theorem cb_region_merge (u R : String) :
    "| `" ++ ("on" ++ (u ++ ("Change" ++ ("` | `(" ++ R)))) =
      "| `on" ++ (u ++ ("Change` | `(" ++ R)) := by
  rw [← String.append_assoc "| `" "on"]
  rw [← String.append_assoc "Change" "` | `("]
  rfl

theorem set_region_merge (u R : String) :
    "| `" ++ ("set" ++ (u ++ ("` | `(value: " ++ R))) =
      "| `set" ++ (u ++ ("` | `(value: " ++ R)) := by
  rw [← String.append_assoc "| `" "set"]
  rfl

set_option maxHeartbeats 1000000 in
theorem props_row_step (s : String) (p : PropSpec) :
    s ++ "| `" ++ p.name ++ "` | `" ++ p.ptype ++ "` | `" ++ p.dflt ++ "` | " ++ p.descr
      ++ " |\n" ++ "| `on" ++ specUpperFirst p.name ++ "Change` | `(" ++ p.name ++ ": "
      ++ p.ptype ++ ") => void` | `-` | Callback when " ++ p.name ++ " changes |\n"
    = s ++ specPropsRowPair p := by
  unfold specPropsRowPair specCallbackName
  simp only [String.append_assoc]
  rw [cb_region_merge]

set_option maxHeartbeats 1000000 in
theorem render_row_step (s : String) (p : PropSpec) :
    s ++ "| `" ++ p.name ++ "` | `" ++ p.ptype ++ "` | " ++ p.renderDescr ++ " |\n"
      ++ "| `set" ++ specUpperFirst p.name ++ "` | `(value: " ++ p.ptype
      ++ ") => void` | Update the " ++ p.name ++ " |\n"
    = s ++ specRenderRowPair p := by
  unfold specRenderRowPair specSetterName
  simp only [String.append_assoc]
  rw [set_region_merge]

set_option maxHeartbeats 1600000 in
theorem generate_props_rows_aux :
    ∀ (props : List PropSpec), (∀ p ∈ props, p.name ≠ "") → ∀ s : String,
      List.foldl
        (fun acc p =>
          acc.bind fun s =>
            (pyCapHead p.name).map fun capped =>
              s ++ "| `" ++ p.name ++ "` | `" ++ p.ptype ++ "` | `" ++ p.dflt ++ "` | "
                ++ p.descr ++ " |\n"
                ++ "| `on" ++ capped ++ "Change` | `(" ++ p.name ++ ": " ++ p.ptype
                ++ ") => void` | `-` | Callback when " ++ p.name ++ " changes |\n")
        (some s) props =
      some (s ++ specPropsRows props) := by
  intro props
  induction props with
  | nil =>
    intro _ s
    rw [List.foldl_nil]
    unfold specPropsRows
    rw [String.append_empty]
  | cons p ps ih =>
    intro h s
    rw [List.foldl_cons]
    simp only [Option.some_bind]
    rw [pyCapHead_eq p.name (h p (List.mem_cons_self _ _)), Option.map_some']
    rw [props_row_step s p]
    rw [ih (fun q hq => h q (List.mem_cons_of_mem p hq)) (s ++ specPropsRowPair p)]
    rw [show specPropsRows (p :: ps) = specPropsRowPair p ++ specPropsRows ps from rfl,
      String.append_assoc]

set_option maxHeartbeats 1600000 in
theorem generate_render_props_rows_aux :
    ∀ (props : List PropSpec), (∀ p ∈ props, p.name ≠ "") → ∀ s : String,
      List.foldl
        (fun acc p =>
          acc.bind fun s =>
            (pyCapHead p.name).map fun capped =>
              s ++ "| `" ++ p.name ++ "` | `" ++ p.ptype ++ "` | " ++ p.renderDescr ++ " |\n"
                ++ "| `set" ++ capped ++ "` | `(value: " ++ p.ptype
                ++ ") => void` | Update the " ++ p.name ++ " |\n")
        (some s) props =
      some (s ++ specRenderRows props) := by
  intro props
  induction props with
  | nil =>
    intro _ s
    rw [List.foldl_nil]
    unfold specRenderRows
    rw [String.append_empty]
  | cons p ps ih =>
    intro h s
    rw [List.foldl_cons]
    simp only [Option.some_bind]
    rw [pyCapHead_eq p.name (h p (List.mem_cons_self _ _)), Option.map_some']
    rw [render_row_step s p]
    rw [ih (fun q hq => h q (List.mem_cons_of_mem p hq)) (s ++ specRenderRowPair p)]
    rw [show specRenderRows (p :: ps) = specRenderRowPair p ++ specRenderRows ps from rfl,
      String.append_assoc]

/-- C3: for every prop list with non-empty names, the Page Generator's props
table consists of the prop rows with on-change callback identifiers
`"on" + upper(N[0]) + N[1:] + "Change"`, and its render-props table of the
prop rows with setter identifiers `"set" + upper(N[0]) + N[1:]` — only the
first character is uppercased and the remainder of the name is unchanged. -/
theorem generated_identifier_names (props : List PropSpec)
    (h : ∀ p ∈ props, p.name ≠ "") :
    generate_props_rows props = some (specPropsRows props) ∧
      generate_render_props_rows props = some (specRenderRows props) :=
  ⟨generate_props_rows_aux props h "", generate_render_props_rows_aux props h ""⟩

/-- Witness for C3 at the prop `rate` (mixed-case remainder preserved). -/
theorem generated_identifier_names_witness :
    (∀ p ∈ ([⟨"rateHz", "number", "1.5", "Rate", "Current rate"⟩] : List PropSpec),
      p.name ≠ "") ∧
    (generate_props_rows [⟨"rateHz", "number", "1.5", "Rate", "Current rate"⟩] =
        some (specPropsRows [⟨"rateHz", "number", "1.5", "Rate", "Current rate"⟩]) ∧
      generate_render_props_rows [⟨"rateHz", "number", "1.5", "Rate", "Current rate"⟩] =
        some (specRenderRows [⟨"rateHz", "number", "1.5", "Rate", "Current rate"⟩])) :=
  ⟨by decide,
    generated_identifier_names [⟨"rateHz", "number", "1.5", "Rate", "Current rate"⟩]
      (by decide)⟩

/-! ## Per-file failure isolation of the driver loops (C8) -/

theorem runAll_append (fs : DocFS) (xs ys : List Job) :
    runAll fs (xs ++ ys) =
      ((runAll (runAll fs xs).1 ys).1, (runAll fs xs).2 ++ (runAll (runAll fs xs).1 ys).2) := by
  induction xs generalizing fs with
  | nil => simp [runAll]
  | cons j js ih =>
    simp only [List.cons_append, runAll]
    rw [show (js.append ys : List Job) = js ++ ys from rfl, ih]

theorem runOne_fail_isolation (fs : DocFS) (pre post : List Job) (j : Job)
    (hfail : runOne (runAll fs pre).1 j = ((runAll fs pre).1, false)) :
    runAll fs (pre ++ j :: post) =
      ((runAll fs (pre ++ post)).1,
        (runAll fs pre).2 ++ (j.jobName, false) :: (runAll (runAll fs pre).1 post).2) := by
  rw [runAll_append fs pre (j :: post), runAll_append fs pre post]
  have hstep : runAll (runAll fs pre).1 (j :: post) =
      ((runAll (runAll fs pre).1 post).1,
        (j.jobName, false) :: (runAll (runAll fs pre).1 post).2) := by
    simp only [runAll, hfail]
  rw [hstep]

/-- C8: in each of the three scripts' driver loops, an entry whose
processing fails — a missing target file or a raised exception, which the
per-file `try/except` turns into a logged `false` outcome with the file
system unchanged — is skipped, and every other entry of the run produces
the same file-system result as if the failing entry were absent. -/
theorem scripts_per_file_isolation :
    (∀ (pre post : List (String × List PropRow)) (e : String × List PropRow) (fs : DocFS),
      runOne (add_props_main pre fs).1 (Job.patch e.1 (add_props_to_file e.2)) =
          ((add_props_main pre fs).1, false) →
      add_props_main (pre ++ e :: post) fs =
        ((add_props_main (pre ++ post) fs).1,
          (add_props_main pre fs).2 ++
            (e.1, false) :: (add_props_main post (add_props_main pre fs).1).2)) ∧
    (∀ (pre post : List (String × String × List String)) (e : String × String × List String)
        (fs : DocFS),
      runOne (fix_docs_main pre fs).1 (Job.patch e.1 (fix_file e.2.1 e.2.2)) =
          ((fix_docs_main pre fs).1, false) →
      fix_docs_main (pre ++ e :: post) fs =
        ((fix_docs_main (pre ++ post) fs).1,
          (fix_docs_main pre fs).2 ++
            (e.1, false) :: (fix_docs_main post (fix_docs_main pre fs).1).2)) ∧
    (∀ {α : Type} (render : α → Option String) (pre post : List (String × α)) (e : String × α)
        (fs : DocFS),
      runOne (create_docs_main render pre fs).1 (Job.generate e.1 (render e.2)) =
          ((create_docs_main render pre fs).1, false) →
      create_docs_main render (pre ++ e :: post) fs =
        ((create_docs_main render (pre ++ post) fs).1,
          (create_docs_main render pre fs).2 ++
            (e.1, false) :: (create_docs_main render post (create_docs_main render pre fs).1).2)) := by
  refine ⟨?_, ?_, ?_⟩
  · intro pre post e fs hfail
    unfold add_props_main
    rw [List.map_append, List.map_cons, List.map_append,
      runOne_fail_isolation fs _ _ _ hfail]
    rfl
  · intro pre post e fs hfail
    unfold fix_docs_main
    rw [List.map_append, List.map_cons, List.map_append,
      runOne_fail_isolation fs _ _ _ hfail]
    rfl
  · intro α render pre post e fs hfail
    unfold create_docs_main
    rw [List.map_append, List.map_cons, List.map_append,
      runOne_fail_isolation fs _ _ _ hfail]
    rfl

/-- Witness for C8: a missing `missing.md` in the Row Injector run, a
missing file in the Section Replacer run, and a failing rendering in the
Page Generator run are each skipped while the other files are processed as
if the failing entry were absent. -/
theorem scripts_per_file_isolation_witness :
    (runOne (add_props_main [("a.md", [])] [("a.md", "x"), ("b.md", "y")]).1
        (Job.patch "missing.md" (add_props_to_file [])) =
        ((add_props_main [("a.md", [])] [("a.md", "x"), ("b.md", "y")]).1, false) ∧
      add_props_main ([("a.md", [])] ++ ("missing.md", []) :: [("b.md", [])])
          [("a.md", "x"), ("b.md", "y")] =
        ((add_props_main ([("a.md", [])] ++ [("b.md", [])])
            [("a.md", "x"), ("b.md", "y")]).1,
          (add_props_main [("a.md", [])] [("a.md", "x"), ("b.md", "y")]).2 ++
            ("missing.md", false) ::
              (add_props_main [("b.md", [])]
                (add_props_main [("a.md", [])] [("a.md", "x"), ("b.md", "y")]).1).2)) ∧
    (runOne (fix_docs_main [("a.md", "C", [])] [("a.md", "x")]).1
        (Job.patch "missing.md" (fix_file "C" [])) =
        ((fix_docs_main [("a.md", "C", [])] [("a.md", "x")]).1, false) ∧
      fix_docs_main ([("a.md", "C", [])] ++ ("missing.md", "C", []) :: [])
          [("a.md", "x")] =
        ((fix_docs_main ([("a.md", "C", [])] ++ []) [("a.md", "x")]).1,
          (fix_docs_main [("a.md", "C", [])] [("a.md", "x")]).2 ++
            ("missing.md", false) ::
              (fix_docs_main [] (fix_docs_main [("a.md", "C", [])] [("a.md", "x")]).1).2)) ∧
    (runOne (create_docs_main id [("a.md", some "body")] []).1
        (Job.generate "x.md" (id (none : Option String))) =
        ((create_docs_main id [("a.md", some "body")] []).1, false) ∧
      create_docs_main id ([("a.md", some "body")] ++ ("x.md", (none : Option String)) ::
          [("b.md", some "body2")]) [] =
        ((create_docs_main id ([("a.md", some "body")] ++ [("b.md", some "body2")]) []).1,
          (create_docs_main id [("a.md", some "body")] []).2 ++
            ("x.md", false) ::
              (create_docs_main id [("b.md", some "body2")]
                (create_docs_main id [("a.md", some "body")] []).1).2)) :=
  ⟨⟨by decide,
      scripts_per_file_isolation.1 [("a.md", [])] [("b.md", [])] ("missing.md", [])
        [("a.md", "x"), ("b.md", "y")] (by decide)⟩,
    ⟨by decide,
      scripts_per_file_isolation.2.1 [("a.md", "C", [])] [] ("missing.md", "C", [])
        [("a.md", "x")] (by decide)⟩,
    ⟨by decide,
      scripts_per_file_isolation.2.2 id [("a.md", some "body")] [("b.md", some "body2")]
        ("x.md", none) [] (by decide)⟩⟩
